import Mathlib

/-!
# sheerun/jwt: encode / decode engine

A shallow embedding of `jwt.go` (functions `Decode` and `Encode`) together with
the collaborators they call, followed by the properties of the token codec.

Byte slices (`[]byte`) are lists of bytes, Go `error` results are `Except`
values or an optional error, the caller's target (`obj interface{}`, mutated
through a pointer) is passed in and returned, and every call of a `Signer`
method is recorded in a call log so that statements such as "Verify is never
invoked" can be expressed.
-/

namespace Jwt

/-! ## Bytes -/

/-- One byte of a Go `[]byte`. -/
abbrev Byte := Fin 256

/-- A Go byte slice. -/
abbrev Bytes := List Byte

/-- The byte with numeric value `n` (taken modulo 256). -/
def byte (n : Nat) : Byte := ⟨n % 256, Nat.mod_lt n (by decide)⟩

/-- The bytes of an ASCII string literal. -/
def ofString (s : String) : Bytes := s.toList.map (fun c => byte c.toNat)

/-- Variable `tokenSep` of `jwt.go`: the token separator `[]byte{'.'}`. -/
def tokenSep : Bytes := [46]

/-! ## Errors -/

/-- Go `error` values that `Decode` and `Encode` can return.  The three named
errors are the package's sentinel values; `CorruptInputError` is the error of
`encoding/base64` (its offset is not modelled); `other` stands for any error
produced by a collaborator (JSON, a `Signer`, the binding layer). -/
inductive Error where
  | ErrInvalidSignature
  | ErrInvalidAlgorithm
  | ErrMalformedToken
  | CorruptInputError
  | other (msg : String)
deriving DecidableEq, Repr

deriving instance DecidableEq for Except

/-! ## Unpadded base64url (`b64`) -/

/-- The URL-safe base64 alphabet, `A-Z a-z 0-9 - _`, as a map from a 6-bit
value to its character. -/
def encodeURL (s : Nat) : Byte :=
  if s < 26 then byte (65 + s)
  else if s < 52 then byte (97 + (s - 26))
  else if s < 62 then byte (48 + (s - 52))
  else if s = 62 then byte 45
  else byte 95

/-- The decode map of the URL-safe alphabet: the 6-bit value of a character,
or `none` for a byte outside the alphabet. -/
def decodeURL (c : Byte) : Option Nat :=
  if 65 ≤ c.val ∧ c.val ≤ 90 then some (c.val - 65)
  else if 97 ≤ c.val ∧ c.val ≤ 122 then some (c.val - 97 + 26)
  else if 48 ≤ c.val ∧ c.val ≤ 57 then some (c.val - 48 + 52)
  else if c.val = 45 then some 62
  else if c.val = 95 then some 63
  else none

/-- Modelled from the spec: `b64.EncodedLen`, the length of the unpadded
encoding of `n` bytes. -/
def b64EncodedLen (n : Nat) : Nat := n / 3 * 4 + (n % 3 * 8 + 5) / 6

/-- Modelled from the spec: `b64.Encode` for the package variable `b64`, the
unpadded base64url codec (URL-safe alphabet, no padding characters).  Three
input bytes give four characters; a final group of one or two bytes gives two
or three characters and no padding. -/
def b64Encode : Bytes → Bytes
  | b0 :: b1 :: b2 :: rest =>
      let v := b0.val * 65536 + b1.val * 256 + b2.val
      encodeURL (v / 262144 % 64) :: encodeURL (v / 4096 % 64) ::
        encodeURL (v / 64 % 64) :: encodeURL (v % 64) :: b64Encode rest
  | [b0, b1] =>
      let v := b0.val * 65536 + b1.val * 256
      [encodeURL (v / 262144 % 64), encodeURL (v / 4096 % 64), encodeURL (v / 64 % 64)]
  | [b0] =>
      let v := b0.val * 65536
      [encodeURL (v / 262144 % 64), encodeURL (v / 4096 % 64)]
  | [] => []

/-- Decoding of the characters that remain once line breaks are skipped: four
characters give three bytes, a final group of two or three characters gives
one or two bytes, a single left-over character or any byte outside the
alphabet (the padding character included) is a `CorruptInputError`. -/
def decodeQuanta : Bytes → Except Error Bytes
  | c0 :: c1 :: c2 :: c3 :: rest =>
      match decodeURL c0, decodeURL c1, decodeURL c2, decodeURL c3 with
      | some s0, some s1, some s2, some s3 =>
          let v := s0 * 262144 + s1 * 4096 + s2 * 64 + s3
          match decodeQuanta rest with
          | .ok out => .ok (byte (v / 65536) :: byte (v / 256) :: byte v :: out)
          | .error e => .error e
      | _, _, _, _ => .error Error.CorruptInputError
  | [c0, c1, c2] =>
      match decodeURL c0, decodeURL c1, decodeURL c2 with
      | some s0, some s1, some s2 =>
          let v := s0 * 262144 + s1 * 4096 + s2 * 64
          .ok [byte (v / 65536), byte (v / 256)]
      | _, _, _ => .error Error.CorruptInputError
  | [c0, c1] =>
      match decodeURL c0, decodeURL c1 with
      | some s0, some s1 =>
          let v := s0 * 262144 + s1 * 4096
          .ok [byte (v / 65536)]
      | _, _ => .error Error.CorruptInputError
  | [_] => .error Error.CorruptInputError
  | [] => .ok []

/-- Modelled from the spec: `b64.DecodeString` for the unpadded base64url
codec.  Carriage returns and line feeds in the input are skipped, as
`encoding/base64` does. -/
def b64DecodeString (s : Bytes) : Except Error Bytes :=
  decodeQuanta (s.filter (fun c => !(c.val == 10 || c.val == 13)))

/-! ## Splitting a wire token -/

/-- Go `bytes.Split(s, sep)` for a one-byte separator: the subslices of `s`
between occurrences of `sep`; a slice without separator gives one part. -/
def bytesSplit (sep : Byte) : Bytes → List Bytes
  | [] => [[]]
  | b :: bs =>
      if b = sep then [] :: bytesSplit sep bs
      else
        match bytesSplit sep bs with
        | [] => [[b]]
        | s :: ss => (b :: s) :: ss

/-- The three raw byte spans of an incoming wire token. -/
structure UnverifiedToken where
  Header : Bytes
  Payload : Bytes
  Signature : Bytes
deriving DecidableEq, Repr

/-- Modelled from the spec: `DecodeUnverifiedToken`, the split step.  The wire
token is split on `"."` and must give exactly three parts, which become the
header, payload and signature spans; any other count is the malformed-token
error.  The error condition is the count alone. -/
def DecodeUnverifiedToken (buf : Bytes) : Except Error UnverifiedToken :=
  match bytesSplit 46 buf with
  | [h, p, s] => .ok { Header := h, Payload := p, Signature := s }
  | _ => .error Error.ErrMalformedToken

/-! ## Data model -/

/-- Modelled from the spec: type `Algorithm`, the closed set of signing
algorithms (HMAC, RSASSA-PKCS1v1.5, RSASSA-PSS and ECDSA, each with SHA-256,
SHA-384 and SHA-512). -/
inductive Algorithm where
  | HS256 | HS384 | HS512
  | RS256 | RS384 | RS512
  | PS256 | PS384 | PS512
  | ES256 | ES384 | ES512
deriving DecidableEq, Repr

/-- Modelled from the spec: `Algorithm.String`, the wire name of an
algorithm. -/
def Algorithm.String : Algorithm → String
  | .HS256 => "HS256" | .HS384 => "HS384" | .HS512 => "HS512"
  | .RS256 => "RS256" | .RS384 => "RS384" | .RS512 => "RS512"
  | .PS256 => "PS256" | .PS384 => "PS384" | .PS512 => "PS512"
  | .ES256 => "ES256" | .ES384 => "ES384" | .ES512 => "ES512"

/-- Modelled from the spec: type `Header`, the decoded JSON structure with the
algorithm (`alg`) and the optional type marker (`typ`). -/
structure Header where
  Typ : Option String
  Algorithm : Algorithm
deriving DecidableEq, Repr

/-- Modelled from the spec: `Algorithm.Header`, the canonical header value
holding the algorithm's wire name. -/
def Algorithm.Header (alg : Algorithm) : Header := { Typ := none, Algorithm := alg }

/-- Modelled from the spec: type `Claims`, the standard registered claims
(issuer, subject, audience, expiry, not-before, issued-at, token ID), times in
seconds since the epoch. -/
structure Claims where
  Issuer : String
  Subject : String
  Audience : List String
  Expiration : Int
  NotBefore : Int
  IssuedAt : Int
  JwtID : String
deriving DecidableEq, Repr

/-- Modelled from the spec: type `Token`, the composite of header, payload and
raw signature bytes. -/
structure Token where
  Header : Header
  Payload : Claims
  Signature : Bytes
deriving DecidableEq, Repr

/-- The Go values handed to `Encode` as `obj interface{}`: a `*Token`, or any
other value (a header, a claims value, or a value of a caller-defined type
`V`). -/
inductive Obj (V : Type) where
  | token (t : Token)
  | header (h : Header)
  | claims (c : Claims)
  | other (v : V)
deriving DecidableEq

/-! ## Collaborators -/

/-- Interface `Signer`, restricted to the two methods `Decode` and `Encode`
call: `Sign(buf)` and `Verify(buf, sig)`, each returning bytes or an error. -/
structure Signer where
  Sign : Bytes → Except Error Bytes
  Verify : Bytes → Bytes → Except Error Bytes

/-- One recorded call of a `Signer` method, with its arguments. -/
inductive Call where
  | Sign (data : Bytes)
  | Verify (data : Bytes) (sig : Bytes)
deriving DecidableEq, Repr

/-- The `encoding/json` collaborator, a black box: `json.Marshal` of a value,
and `json.Unmarshal` of a buffer into a fresh `Header` or a fresh `Claims`. -/
structure JSONCodec (V : Type) where
  Marshal : Obj V → Except Error Bytes
  UnmarshalHeader : Bytes → Except Error Header
  UnmarshalClaims : Bytes → Except Error Claims

/-- The `defaultObj` argument of `decodeToObjOrFieldWithTag`: the address of
the decoded header or of the decoded payload. -/
inductive Default where
  | header (h : Header)
  | payload (c : Claims)
deriving DecidableEq, Repr

/-- The reflective binding layer for targets of type `τ`, a parameter of
`Decode` (its code is not part of `jwt.go`).
`decodeToObjOrFieldWithTag buf obj tagName defaultObj` returns the target as
the call leaves it together with the error it returns (`none` for `nil`);
`getFieldWithTag obj tagName` returns the field carrying the tag, as the
function that sets it (`reflect.Value.Set`), or `none` for a `nil` result. -/
structure Binder (τ : Type) where
  decodeToObjOrFieldWithTag : Bytes → τ → String → Default → τ × Option Error
  getFieldWithTag : τ → String → Option (Bytes → τ)

/-! ## `Decode` -/

/-- What a call returns to its caller: `nil`, an error, or a run-time panic
(a slice expression out of range). -/
inductive Outcome where
  | nil
  | error (e : Error)
  | panic
deriving DecidableEq, Repr

/-- The observable result of `Decode`: the returned error, the caller's target
after the call, and the `Signer` calls made, in order. -/
structure DecodeResult (τ : Type) where
  ret : Outcome
  obj : τ
  calls : List Call

/-- Go slice expression `buf[:n]`: `none` when `n` is out of range (beyond the
length of `buf`; spare capacity is not modelled). -/
def sliceTo (buf : Bytes) (n : Nat) : Option Bytes :=
  if n ≤ buf.length then some (buf.take n) else none

/-- Function `Decode` of `jwt.go`: split the token, verify the signature,
decode and check the header, bind header, payload and signature into `obj`. -/
def Decode {τ V : Type} (J : JSONCodec V) (R : Binder τ)
    (alg : Algorithm) (signer : Signer) (buf : Bytes) (obj : τ) : DecodeResult τ :=
  -- split token
  match DecodeUnverifiedToken buf with
  | .error err => ⟨.error err, obj, []⟩
  | .ok ut =>
    -- verify signature
    match sliceTo buf (ut.Header.length + tokenSep.length + ut.Payload.length) with
    | none => ⟨.panic, obj, []⟩
    | some data =>
      let calls := [Call.Verify data ut.Signature]
      match signer.Verify data ut.Signature with
      | .error _ => ⟨.error Error.ErrInvalidSignature, obj, calls⟩
      | .ok sig =>
        -- b64 decode header
        match b64DecodeString ut.Header with
        | .error err => ⟨.error err, obj, calls⟩
        | .ok headerBuf =>
          -- json decode header
          match J.UnmarshalHeader headerBuf with
          | .error err => ⟨.error err, obj, calls⟩
          | .ok header =>
            -- verify alg matches header algorithm
            if alg ≠ header.Algorithm then ⟨.error Error.ErrInvalidAlgorithm, obj, calls⟩
            else
              -- set header in the provided obj
              match R.decodeToObjOrFieldWithTag headerBuf obj "header" (.header header) with
              | (obj1, some err) => ⟨.error err, obj1, calls⟩
              | (obj1, none) =>
                -- b64 decode payload
                match b64DecodeString ut.Payload with
                | .error err => ⟨.error err, obj1, calls⟩
                | .ok payloadBuf =>
                  -- json decode payload
                  match J.UnmarshalClaims payloadBuf with
                  | .error err => ⟨.error err, obj1, calls⟩
                  | .ok payload =>
                    -- set payload in the provided obj
                    match R.decodeToObjOrFieldWithTag payloadBuf obj1 "payload" (.payload payload) with
                    | (obj2, some err) => ⟨.error err, obj2, calls⟩
                    | (obj2, none) =>
                      -- set sig in the provided obj
                      match R.getFieldWithTag obj2 "signature" with
                      | some field => ⟨.nil, field sig, calls⟩
                      | none => ⟨.nil, obj2, calls⟩

/-! ## `Encode` -/

/-- The observable result of `Encode`: the returned pair (token or error) and
the `Signer` calls made, in order. -/
structure EncodeResult where
  ret : Except Error Bytes
  calls : List Call

/-- Go `bytes.Buffer.Write`: appends `p` to the buffer; the returned error is
always `nil`. -/
def bufferWrite (buf p : Bytes) : Bytes × Option Error := (buf ++ p, none)

/-- The type switch at the head of `Encode`: a `*Token` supplies its own
header and payload, any other value is the payload and the header is
`alg.Header()`. -/
def encodeObjs {V : Type} (alg : Algorithm) (obj : Obj V) : Obj V × Obj V :=
  match obj with
  | .token val => (.header val.Header, .claims val.Payload)
  | val => (.header alg.Header, val)

/-- Function `Encode` of `jwt.go`: JSON- and base64url-encode header and
payload, join them with `tokenSep`, sign, append `tokenSep` and the
signature. -/
def Encode {V : Type} (J : JSONCodec V) (alg : Algorithm) (signer : Signer)
    (obj : Obj V) : EncodeResult :=
  -- determine what to encode
  let headerObj := (encodeObjs alg obj).1
  let payloadObj := (encodeObjs alg obj).2
  -- json encode header
  match J.Marshal headerObj with
  | .error err => ⟨.error err, []⟩
  | .ok header =>
    let headerEnc := b64Encode header
    -- json encode payload
    match J.Marshal payloadObj with
    | .error err => ⟨.error err, []⟩
    | .ok payload =>
      let payloadEnc := b64Encode payload
      -- add header
      match bufferWrite [] headerEnc with
      | (_, some err) => ⟨.error err, []⟩
      | (buf1, none) =>
        -- add 1st separator
        match bufferWrite buf1 tokenSep with
        | (_, some err) => ⟨.error err, []⟩
        | (buf2, none) =>
          -- add payload
          match bufferWrite buf2 payloadEnc with
          | (_, some err) => ⟨.error err, []⟩
          | (buf3, none) =>
            -- sign
            match signer.Sign buf3 with
            | .error err => ⟨.error err, [Call.Sign buf3]⟩
            | .ok sig =>
              -- add 2nd separator
              match bufferWrite buf3 tokenSep with
              | (_, some err) => ⟨.error err, [Call.Sign buf3]⟩
              | (buf4, none) =>
                -- add sig
                match bufferWrite buf4 sig with
                | (_, some err) => ⟨.error err, [Call.Sign buf3]⟩
                | (buf5, none) => ⟨.ok buf5, [Call.Sign buf3]⟩

/-! ## Binding into `*Token` and `*Claims` targets -/

/-- Modelled from the spec: the binding layer (`decodeToObjOrFieldWithTag`,
`getFieldWithTag`) for a `*Token` target, whose three fields carry the tags
`header`, `payload` and `signature`: each decoded part is written into the
field with its tag. -/
def tokenBinder : Binder Token where
  decodeToObjOrFieldWithTag := fun _ obj tagName defaultObj =>
    match defaultObj with
    | .header h =>
        if tagName = "header" then ({ obj with Header := h }, none) else (obj, none)
    | .payload c =>
        if tagName = "payload" then ({ obj with Payload := c }, none) else (obj, none)
  getFieldWithTag := fun obj tagName =>
    if tagName = "signature" then some (fun sig => { obj with Signature := sig }) else none

/-- Modelled from the spec: the binding layer for a `*Claims` target, an
untagged structure: it has no header-tagged and no signature-tagged field,
and the whole target is treated as the payload. -/
def claimsBinder : Binder Claims where
  decodeToObjOrFieldWithTag := fun _ obj _ defaultObj =>
    match defaultObj with
    | .header _ => (obj, none)
    | .payload c => (c, none)
  getFieldWithTag := fun _ _ => none

/-! ## Character classes and tampering -/

/-- The character class `[A-Za-z0-9_-]` of a token segment. -/
def isSegmentChar (c : Byte) : Bool :=
  (65 ≤ c.val && c.val ≤ 90) || (97 ≤ c.val && c.val ≤ 122) ||
    (48 ≤ c.val && c.val ≤ 57) || c.val == 95 || c.val == 45

/-- The byte `b` with bit `k` flipped. -/
def flipBit (k : Nat) (b : Byte) : Byte := byte (b.val ^^^ 2 ^ k)

/-- The token `tok` with bit `k` of the byte at position `i` flipped. -/
def flipBitAt (tok : Bytes) (i k : Nat) : Bytes :=
  match tok.get? i with
  | some b => tok.set i (flipBit k b)
  | none => tok

/-! ## Concrete collaborators

Small executable instances of the collaborators, used to evaluate `Encode` and
`Decode` on concrete inputs. -/

/-- The text of a byte slice. -/
def toText (b : Bytes) : String := String.mk (b.map (fun c => Char.ofNat c.val))

/-- The supported algorithms, in declaration order. -/
def allAlgorithms : List Algorithm :=
  [.HS256, .HS384, .HS512, .RS256, .RS384, .RS512,
   .PS256, .PS384, .PS512, .ES256, .ES384, .ES512]

/-- JSON text of a header: the object with the single member `alg`. -/
def headerJSON (alg : Algorithm) : Bytes :=
  ofString ("\x7b\"alg\":\"" ++ alg.String ++ "\"\x7d")

/-- A minimal JSON collaborator: headers are written with their `alg` member,
claims with their `iss` member; other values are not supported. -/
def miniJSON : JSONCodec Unit where
  Marshal := fun o =>
    match o with
    | .header h => .ok (headerJSON h.Algorithm)
    | .claims c => .ok (ofString ("\x7b\"iss\":\"" ++ c.Issuer ++ "\"\x7d"))
    | _ => .error (.other "json: unsupported type")
  UnmarshalHeader := fun b =>
    match allAlgorithms.find? (fun a => headerJSON a == b) with
    | some a => .ok { Typ := none, Algorithm := a }
    | none => .error (.other "json: cannot unmarshal header")
  UnmarshalClaims := fun b =>
    let pre := ofString "\x7b\"iss\":\""
    let suf := ofString "\"\x7d"
    if b.take pre.length = pre ∧ b.drop (b.length - suf.length) = suf
        ∧ pre.length + suf.length ≤ b.length then
      .ok { Issuer := toText ((b.drop pre.length).take (b.length - pre.length - suf.length)),
            Subject := "", Audience := [], Expiration := 0, NotBefore := 0,
            IssuedAt := 0, JwtID := "" }
    else .error (.other "json: cannot unmarshal claims")

/-- A keyed signer in the style of the package's signers: `Sign` returns the
base64url text of a tag over the data, `Verify` decodes the signature and
compares it with the tag, returning the decoded signature.  The tag is the key
followed by the data. -/
def tagSigner (key : Bytes) : Signer where
  Sign := fun data => .ok (b64Encode (key ++ data))
  Verify := fun data sig =>
    match b64DecodeString sig with
    | .ok raw => if raw = key ++ data then .ok raw else .error Error.ErrInvalidSignature
    | .error e => .error e

/-- A signer whose `Sign` returns the raw bytes `a.b` and whose `Verify`
accepts every signature. -/
def rawSigner : Signer where
  Sign := fun _ => .ok (ofString "a.b")
  Verify := fun _ sig => .ok sig

/-- Claims with the given issuer and every other field unset. -/
def issuerClaims (iss : String) : Claims :=
  { Issuer := iss, Subject := "", Audience := [], Expiration := 0, NotBefore := 0,
    IssuedAt := 0, JwtID := "" }

/-- The zero-value `Token`, with algorithm `alg` in its header. -/
def emptyToken (alg : Algorithm) : Token :=
  { Header := { Typ := none, Algorithm := alg }, Payload := issuerClaims "", Signature := [] }

/-- The key of the sample signer. -/
def sampleKey : Bytes := ofString "k"

/-- The header, payload and signature segments of the token that `Encode`
produces for the issuer `a` under `HS256` with `tagSigner sampleKey`. -/
def sampleSplit : UnverifiedToken :=
  { Header := ofString "eyJhbGciOiJIUzI1NiJ9",
    Payload := ofString "eyJpc3MiOiJhIn0",
    Signature := ofString "a2V5SmhiR2NpT2lKSVV6STFOaUo5LmV5SnBjM01pT2lKaEluMA" }

/-- The sample token: the three segments of `sampleSplit` joined by `.`. -/
def sampleToken : Bytes :=
  sampleSplit.Header ++ tokenSep ++ sampleSplit.Payload ++ tokenSep ++ sampleSplit.Signature

/-- The sample token with its header segment replaced by the encoding of
the header that names `HS384`; payload and signature segments are unchanged. -/
def rewrittenToken : Bytes :=
  b64Encode (headerJSON .HS384) ++ tokenSep ++ sampleSplit.Payload ++ tokenSep ++
    sampleSplit.Signature

/-- The token with header segment `hseg` and payload segment `pseg`, signed by
`tagSigner sampleKey` over these two segments. -/
def signedToken (hseg pseg : Bytes) : Bytes :=
  hseg ++ tokenSep ++ pseg ++ tokenSep ++ b64Encode (sampleKey ++ (hseg ++ tokenSep ++ pseg))

/-- A correctly signed token whose payload segment `!!!!` is not base64url
text; its header segment is the one of the sample token. -/
def badPayloadToken : Bytes := signedToken sampleSplit.Header (ofString "!!!!")

/-- A correctly signed token whose header segment `!!!!` is not base64url
text; its payload segment is the one of the sample token. -/
def badHeaderToken : Bytes := signedToken (ofString "!!!!") sampleSplit.Payload

/-- A `Token` value whose own header names `HS384`, with the issuer `a`. -/
def hs384Token : Token :=
  { Header := Algorithm.Header .HS384, Payload := issuerClaims "a", Signature := [] }

/-- The token that `Encode` produces for `hs384Token` with the sample signer:
header segment naming `HS384`, the payload segment of the sample token, and
the signature over these two. -/
def rewrittenTokenSigned : Bytes :=
  signedToken (b64Encode (headerJSON .HS384)) sampleSplit.Payload

/-- The token that `Encode` produces under `HS256` with the sample signer for
the payload `[1,2]`, a JSON array. -/
def arrayToken : Bytes := signedToken sampleSplit.Header (b64Encode (ofString "[1,2]"))

/-- A JSON collaborator for a caller-defined payload type that holds raw JSON
text (in the manner of `json.RawMessage`): such a value is written as it is;
headers and claims are handled as by `miniJSON`. -/
def rawJSON : JSONCodec Bytes where
  Marshal := fun o =>
    match o with
    | .header h => miniJSON.Marshal (.header h)
    | .claims c => miniJSON.Marshal (.claims c)
    | .other raw => .ok raw
    | .token _ => .error (.other "json: unsupported type")
  UnmarshalHeader := miniJSON.UnmarshalHeader
  UnmarshalClaims := miniJSON.UnmarshalClaims

/-- Modelled from the spec: the binding layer for a target of a caller-defined
payload type that holds raw JSON text.  The structure is untagged, so the
whole target is treated as the payload and receives the payload bytes; it has
no header-tagged and no signature-tagged field. -/
def rawMessageBinder : Binder Bytes where
  decodeToObjOrFieldWithTag := fun buf obj _ defaultObj =>
    match defaultObj with
    | .header _ => (obj, none)
    | .payload _ => (buf, none)
  getFieldWithTag := fun _ _ => none

/-! ## Lemmas: splitting -/

theorem bytesSplit_ne_nil (sep : Byte) (l : Bytes) : bytesSplit sep l ≠ [] := by
  induction l with
  | nil => simp [bytesSplit]
  | cons b bs ih =>
    unfold bytesSplit
    split
    · simp
    · split <;> simp

theorem bytesSplit_of_not_mem {sep : Byte} {l : Bytes} (h : sep ∉ l) :
    bytesSplit sep l = [l] := by
  induction l with
  | nil => rfl
  | cons b bs ih =>
    have hb : b ≠ sep := fun e => h (by simp [e])
    have hbs : sep ∉ bs := fun m => h (List.mem_cons_of_mem _ m)
    simp [bytesSplit, hb, ih hbs]

theorem bytesSplit_append_sep {sep : Byte} {a : Bytes} (rest : Bytes) (h : sep ∉ a) :
    bytesSplit sep (a ++ sep :: rest) = a :: bytesSplit sep rest := by
  induction a with
  | nil => simp [bytesSplit]
  | cons b bs ih =>
    have hb : b ≠ sep := fun e => h (by simp [e])
    have hbs : sep ∉ bs := fun m => h (List.mem_cons_of_mem _ m)
    simp [bytesSplit, hb, ih hbs]

theorem bytesSplit_cons_inv {sep : Byte} {l x : Bytes} {xs : List Bytes}
    (h : bytesSplit sep l = x :: xs) :
    sep ∉ x ∧ ((xs = [] ∧ l = x) ∨
      ∃ rest, l = x ++ sep :: rest ∧ bytesSplit sep rest = xs) := by
  induction l generalizing x xs with
  | nil =>
    simp [bytesSplit] at h
    obtain ⟨rfl, rfl⟩ := h
    simp
  | cons b bs ih =>
    unfold bytesSplit at h
    by_cases hb : b = sep
    · simp [hb] at h
      obtain ⟨rfl, rfl⟩ := h
      refine ⟨by simp, Or.inr ⟨bs, by simp [hb], rfl⟩⟩
    · simp only [hb, if_false] at h
      cases hs : bytesSplit sep bs with
      | nil => exact absurd hs (bytesSplit_ne_nil sep bs)
      | cons s ss =>
        rw [hs] at h
        simp at h
        obtain ⟨rfl, rfl⟩ := h
        obtain ⟨hn, hrest⟩ := ih hs
        refine ⟨?_, ?_⟩
        · intro hm
          rcases List.mem_cons.1 hm with e | e
          · exact hb e.symm
          · exact hn e
        · rcases hrest with ⟨rfl, rfl⟩ | ⟨rest, rfl, hr⟩
          · exact Or.inl ⟨rfl, rfl⟩
          · exact Or.inr ⟨rest, by simp, hr⟩

theorem bytesSplit_length (sep : Byte) (l : Bytes) :
    (bytesSplit sep l).length = l.count sep + 1 := by
  induction l with
  | nil => simp [bytesSplit]
  | cons b bs ih =>
    unfold bytesSplit
    by_cases hb : b = sep
    · simp [hb, ih]
    · simp only [hb, if_false]
      cases hs : bytesSplit sep bs with
      | nil => exact absurd hs (bytesSplit_ne_nil sep bs)
      | cons s ss =>
        rw [hs] at ih
        simp only [List.length_cons] at ih ⊢
        rw [List.count_cons_of_ne (Ne.symm hb)]
        exact ih

/-- A token splits into exactly the three parts `h`, `p`, `s` precisely when
it is `h.p.s` and none of the three parts contains the separator. -/
theorem bytesSplit_three_iff {sep : Byte} {l h p s : Bytes} :
    bytesSplit sep l = [h, p, s] ↔
      l = h ++ sep :: (p ++ sep :: s) ∧ sep ∉ h ∧ sep ∉ p ∧ sep ∉ s := by
  constructor
  · intro hl
    obtain ⟨hh, h1⟩ := bytesSplit_cons_inv hl
    rcases h1 with ⟨e, _⟩ | ⟨r1, rfl, hr1⟩
    · simp at e
    obtain ⟨hp, h2⟩ := bytesSplit_cons_inv hr1
    rcases h2 with ⟨e, _⟩ | ⟨r2, rfl, hr2⟩
    · simp at e
    obtain ⟨hs, h3⟩ := bytesSplit_cons_inv hr2
    rcases h3 with ⟨_, rfl⟩ | ⟨r3, _, hr3⟩
    · exact ⟨rfl, hh, hp, hs⟩
    · exact absurd hr3 (bytesSplit_ne_nil sep r3)
  · rintro ⟨rfl, hh, hp, hs⟩
    rw [bytesSplit_append_sep _ hh, bytesSplit_append_sep _ hp, bytesSplit_of_not_mem hs]

/-! ## Lemmas: base64url -/

@[simp] theorem byte_val (n : Nat) : (byte n).val = n % 256 := rfl

theorem decodeURL_encodeURL (s : Nat) (hs : s < 64) : decodeURL (encodeURL s) = some s := by
  revert s
  decide

theorem isSegmentChar_encodeURL (s : Nat) : isSegmentChar (encodeURL s) = true := by
  unfold encodeURL isSegmentChar
  split_ifs <;> simp <;> omega

theorem isSegmentChar_ne_sep {c : Byte} (h : isSegmentChar c = true) : c ≠ 46 := by
  intro e
  subst e
  revert h
  decide

theorem isSegmentChar_keep {c : Byte} (h : isSegmentChar c = true) :
    (!(c.val == 10 || c.val == 13)) = true := by
  unfold isSegmentChar at h
  simp only [Bool.or_eq_true, Bool.and_eq_true, decide_eq_true_eq, beq_iff_eq] at h
  simp only [Bool.not_eq_true', Bool.or_eq_false_iff, beq_eq_false_iff_ne, ne_eq]
  omega

theorem b64Encode_segmentChars (x : Bytes) : ∀ c ∈ b64Encode x, isSegmentChar c = true := by
  induction x using b64Encode.induct with
  | case1 b0 b1 b2 rest ih =>
    intro c hc
    simp only [b64Encode, List.mem_cons] at hc
    rcases hc with rfl | rfl | rfl | rfl | hc
    · exact isSegmentChar_encodeURL _
    · exact isSegmentChar_encodeURL _
    · exact isSegmentChar_encodeURL _
    · exact isSegmentChar_encodeURL _
    · exact ih c hc
  | case2 b0 b1 =>
    intro c hc
    simp only [b64Encode, List.mem_cons, List.mem_singleton, List.not_mem_nil, or_false] at hc
    rcases hc with rfl | rfl | rfl <;> exact isSegmentChar_encodeURL _
  | case3 b0 =>
    intro c hc
    simp only [b64Encode, List.mem_cons, List.mem_singleton, List.not_mem_nil, or_false] at hc
    rcases hc with rfl | rfl <;> exact isSegmentChar_encodeURL _
  | case4 => intro c hc; simp [b64Encode] at hc

theorem b64Encode_length (x : Bytes) : (b64Encode x).length = b64EncodedLen x.length := by
  induction x using b64Encode.induct with
  | case1 b0 b1 b2 rest ih =>
    simp only [b64Encode, List.length_cons, ih, b64EncodedLen]
    omega
  | case2 b0 b1 => simp [b64Encode, b64EncodedLen]
  | case3 b0 => simp [b64Encode, b64EncodedLen]
  | case4 => simp [b64Encode, b64EncodedLen]

theorem b64Encode_ne_nil {x : Bytes} (h : x ≠ []) : b64Encode x ≠ [] := by
  match x, h with
  | [_], _ => simp [b64Encode]
  | [_, _], _ => simp [b64Encode]
  | _ :: _ :: _ :: _, _ => simp [b64Encode]

theorem decodeQuanta_b64Encode (x : Bytes) : decodeQuanta (b64Encode x) = .ok x := by
  induction x using b64Encode.induct with
  | case1 b0 b1 b2 rest ih =>
    have h0 := b0.isLt
    have h1 := b1.isLt
    have h2 := b2.isLt
    simp only [b64Encode, decodeQuanta, decodeURL_encodeURL _ (Nat.mod_lt _ (by decide : 0 < 64)), ih]
    congr 1
    refine List.cons_eq_cons.2 ⟨?_, List.cons_eq_cons.2 ⟨?_, List.cons_eq_cons.2 ⟨?_, rfl⟩⟩⟩ <;>
      (apply Fin.ext; simp only [byte_val]; omega)
  | case2 b0 b1 =>
    have h0 := b0.isLt
    have h1 := b1.isLt
    simp only [b64Encode, decodeQuanta, decodeURL_encodeURL _ (Nat.mod_lt _ (by decide : 0 < 64))]
    congr 1
    refine List.cons_eq_cons.2 ⟨?_, List.cons_eq_cons.2 ⟨?_, rfl⟩⟩ <;>
      (apply Fin.ext; simp only [byte_val]; omega)
  | case3 b0 =>
    have h0 := b0.isLt
    simp only [b64Encode, decodeQuanta, decodeURL_encodeURL _ (Nat.mod_lt _ (by decide : 0 < 64))]
    congr 1
    refine List.cons_eq_cons.2 ⟨?_, rfl⟩
    apply Fin.ext; simp only [byte_val]; omega
  | case4 => rfl

/-- The unpadded base64url codec round-trips: decoding an encoding gives the
bytes back. -/
theorem b64DecodeString_b64Encode (x : Bytes) : b64DecodeString (b64Encode x) = .ok x := by
  unfold b64DecodeString
  rw [List.filter_eq_self.2 (fun c hc => isSegmentChar_keep (b64Encode_segmentChars x c hc))]
  exact decodeQuanta_b64Encode x

theorem b64Encode_injective {x y : Bytes} (h : b64Encode x = b64Encode y) : x = y := by
  have hx := b64DecodeString_b64Encode x
  rw [h, b64DecodeString_b64Encode y] at hx
  exact (Except.ok.inj hx).symm

theorem sep_not_mem_b64Encode (x : Bytes) : (46 : Byte) ∉ b64Encode x := fun hm =>
  isSegmentChar_ne_sep (b64Encode_segmentChars x _ hm) rfl

/-! ## Lemmas: the split step and `Encode` -/

theorem DecodeUnverifiedToken_ok_iff {buf : Bytes} {ut : UnverifiedToken} :
    DecodeUnverifiedToken buf = .ok ut ↔
      bytesSplit 46 buf = [ut.Header, ut.Payload, ut.Signature] := by
  unfold DecodeUnverifiedToken
  constructor
  · intro h
    split at h
    · rename_i a b c heq
      cases h
      exact heq
    · cases h
  · intro h
    rw [h]

theorem DecodeUnverifiedToken_error_iff {buf : Bytes} {e : Error} :
    DecodeUnverifiedToken buf = .error e ↔
      (bytesSplit 46 buf).length ≠ 3 ∧ e = Error.ErrMalformedToken := by
  unfold DecodeUnverifiedToken
  constructor
  · intro h
    split at h
    · cases h
    · rename_i hne
      cases h
      refine ⟨?_, rfl⟩
      intro hl
      match hb : bytesSplit 46 buf, hl with
      | [a, b, c], _ => exact hne a b c hb
  · rintro ⟨hl, rfl⟩
    split
    · rename_i a b c heq
      rw [heq] at hl
      simp at hl
    · rfl

/-- The token of a successful split is its three spans joined by the
separator. -/
theorem DecodeUnverifiedToken_join {buf : Bytes} {ut : UnverifiedToken}
    (h : DecodeUnverifiedToken buf = .ok ut) :
    buf = ut.Header ++ tokenSep ++ ut.Payload ++ tokenSep ++ ut.Signature := by
  have := (bytesSplit_three_iff.1 (DecodeUnverifiedToken_ok_iff.1 h)).1
  simpa [tokenSep] using this

/-- After a successful split the slice `buf[:len(header)+len(tokenSep)+len(payload)]`
is in range and equals header span, separator, payload span. -/
theorem sliceTo_signingInput {buf : Bytes} {ut : UnverifiedToken}
    (h : DecodeUnverifiedToken buf = .ok ut) :
    sliceTo buf (ut.Header.length + tokenSep.length + ut.Payload.length) =
      some (ut.Header ++ tokenSep ++ ut.Payload) := by
  have hj := DecodeUnverifiedToken_join h
  have hlen : ut.Header.length + tokenSep.length + ut.Payload.length =
      (ut.Header ++ tokenSep ++ ut.Payload).length := by
    simp only [List.length_append]
  unfold sliceTo
  rw [if_pos]
  · congr 1
    conv_lhs => rw [hj, hlen]
    rw [List.append_assoc (ut.Header ++ tokenSep ++ ut.Payload), List.take_left]
  · rw [hlen]
    conv_rhs => rw [hj]
    simp only [List.length_append]
    omega

/-- Function `Encode` with the buffer writes carried out. -/
theorem Encode_eq {V : Type} (J : JSONCodec V) (alg : Algorithm) (signer : Signer)
    (obj : Obj V) :
    Encode J alg signer obj =
      match J.Marshal (encodeObjs alg obj).1 with
      | .error err => ⟨.error err, []⟩
      | .ok header =>
        match J.Marshal (encodeObjs alg obj).2 with
        | .error err => ⟨.error err, []⟩
        | .ok payload =>
          match signer.Sign (b64Encode header ++ tokenSep ++ b64Encode payload) with
          | .error err =>
              ⟨.error err, [Call.Sign (b64Encode header ++ tokenSep ++ b64Encode payload)]⟩
          | .ok sig =>
              ⟨.ok (b64Encode header ++ tokenSep ++ b64Encode payload ++ tokenSep ++ sig),
                [Call.Sign (b64Encode header ++ tokenSep ++ b64Encode payload)]⟩ := rfl

/-- What a successful `Encode` has done: both JSON encodings succeeded, `Sign`
was called once, on the two encoded segments joined by the separator, and the
token is that signing input, the separator and the bytes `Sign` returned. -/
theorem Encode_ok {V : Type} {J : JSONCodec V} {alg : Algorithm} {signer : Signer}
    {obj : Obj V} {tok : Bytes} (h : (Encode J alg signer obj).ret = .ok tok) :
    ∃ header payload sig,
      J.Marshal (encodeObjs alg obj).1 = .ok header ∧
      J.Marshal (encodeObjs alg obj).2 = .ok payload ∧
      signer.Sign (b64Encode header ++ tokenSep ++ b64Encode payload) = .ok sig ∧
      (Encode J alg signer obj).calls =
        [Call.Sign (b64Encode header ++ tokenSep ++ b64Encode payload)] ∧
      tok = b64Encode header ++ tokenSep ++ b64Encode payload ++ tokenSep ++ sig := by
  rw [Encode_eq] at h ⊢
  cases hh : J.Marshal (encodeObjs alg obj).1 with
  | error e => rw [hh] at h; cases h
  | ok header =>
    cases hp : J.Marshal (encodeObjs alg obj).2 with
    | error e => rw [hh, hp] at h; cases h
    | ok payload =>
      cases hs : signer.Sign (b64Encode header ++ tokenSep ++ b64Encode payload) with
      | error e => rw [hh, hp] at h; simp only [hs] at h; cases h
      | ok sig =>
        rw [hh, hp] at h
        simp only [hs] at h
        refine ⟨header, payload, sig, rfl, rfl, hs, ?_, (Except.ok.inj h).symm⟩
        simp only [hs]

/-- When both JSON encodings and `Sign` succeed, so does `Encode`. -/
theorem Encode_of_ok {V : Type} {J : JSONCodec V} {alg : Algorithm} {signer : Signer}
    {obj : Obj V} {header payload sig : Bytes}
    (hh : J.Marshal (encodeObjs alg obj).1 = .ok header)
    (hp : J.Marshal (encodeObjs alg obj).2 = .ok payload)
    (hs : signer.Sign (b64Encode header ++ tokenSep ++ b64Encode payload) = .ok sig) :
    (Encode J alg signer obj).ret =
      .ok (b64Encode header ++ tokenSep ++ b64Encode payload ++ tokenSep ++ sig) := by
  rw [Encode_eq, hh, hp]
  simp only [hs]

/-! ## Lemmas: `Decode`, tampering and the concrete collaborators -/

/-- Function `Decode` after a successful split whose signature `Verify` rejects. -/
theorem Decode_ret_of_verify_error {τ V : Type} (J : JSONCodec V) (R : Binder τ)
    (alg : Algorithm) (signer : Signer) (buf : Bytes) (obj : τ)
    (ut : UnverifiedToken) (e : Error)
    (hsplit : DecodeUnverifiedToken buf = .ok ut)
    (hver : signer.Verify (ut.Header ++ tokenSep ++ ut.Payload) ut.Signature = .error e) :
    (Decode J R alg signer buf obj).ret = .error Error.ErrInvalidSignature := by
  unfold Decode
  simp only [hsplit, sliceTo_signingInput hsplit, hver]

/-- Function `Decode` when the split step fails: the error is returned at once. -/
theorem Decode_of_split_error {τ V : Type} (J : JSONCodec V) (R : Binder τ)
    (alg : Algorithm) (signer : Signer) (buf : Bytes) (obj : τ) (e : Error)
    (hs : DecodeUnverifiedToken buf = .error e) :
    Decode J R alg signer buf obj = ⟨.error e, obj, []⟩ := by
  unfold Decode
  simp only [hs]

/-- A token made of three separator-free segments splits into them. -/
theorem DecodeUnverifiedToken_join_ok {h p s : Bytes}
    (hh : (46 : Byte) ∉ h) (hp : (46 : Byte) ∉ p) (hs : (46 : Byte) ∉ s) :
    DecodeUnverifiedToken (h ++ tokenSep ++ p ++ tokenSep ++ s) =
      .ok { Header := h, Payload := p, Signature := s } := by
  apply DecodeUnverifiedToken_ok_iff.2
  apply bytesSplit_three_iff.2
  refine ⟨by simp [tokenSep], hh, hp, hs⟩

/-- A successfully encoded token that splits into `t0`, `t1`, `t2`: `Sign` was
called on `t0`, separator, `t1`, and returned `t2`. -/
theorem Encode_split {V : Type} {J : JSONCodec V} {alg : Algorithm} {signer : Signer}
    {obj : Obj V} {tok t0 t1 t2 : Bytes}
    (h : (Encode J alg signer obj).ret = .ok tok)
    (hsplit : bytesSplit 46 tok = [t0, t1, t2]) :
    (Encode J alg signer obj).calls = [Call.Sign (t0 ++ tokenSep ++ t1)] ∧
    signer.Sign (t0 ++ tokenSep ++ t1) = .ok t2 ∧
    (∃ header, J.Marshal (encodeObjs alg obj).1 = .ok header ∧ t0 = b64Encode header) ∧
    (∃ payload, J.Marshal (encodeObjs alg obj).2 = .ok payload ∧ t1 = b64Encode payload) := by
  obtain ⟨header, payload, sig, hh, hp, hs, hc, ht⟩ := Encode_ok h
  have htok : tok = b64Encode header ++ 46 :: (b64Encode payload ++ 46 :: sig) := by
    rw [ht]; simp [tokenSep]
  rw [htok, bytesSplit_append_sep _ (sep_not_mem_b64Encode header),
    bytesSplit_append_sep _ (sep_not_mem_b64Encode payload)] at hsplit
  have h0 : b64Encode header = t0 := (List.cons_eq_cons.1 hsplit).1
  have hrest := (List.cons_eq_cons.1 hsplit).2
  have h1 : b64Encode payload = t1 := (List.cons_eq_cons.1 hrest).1
  have hsg := (List.cons_eq_cons.1 hrest).2
  have h2 : sig = t2 := by
    rcases (bytesSplit_cons_inv hsg).2 with ⟨_, e⟩ | ⟨rest, _, hr⟩
    · exact e
    · exact absurd hr (bytesSplit_ne_nil _ _)
  subst h0 h1 h2
  exact ⟨hc, hs, ⟨header, hh, rfl⟩, ⟨payload, hp, rfl⟩⟩

/-- Flipping one of the eight bits of a byte changes the byte. -/
theorem flipBit_ne {k : Nat} (hk : k < 8) (b : Byte) : flipBit k b ≠ b := by
  intro h
  have hv : (b.val ^^^ 2 ^ k) % 256 = b.val := congrArg Fin.val h
  have hlt : b.val ^^^ 2 ^ k < 256 :=
    Nat.xor_lt_two_pow (n := 8) b.isLt (Nat.pow_lt_pow_right (by decide) hk)
  rw [Nat.mod_eq_of_lt hlt] at hv
  have h0 : (2 : Nat) ^ k = 0 := Nat.xor_right_injective (hv.trans (Nat.xor_zero _).symm)
  exact absurd h0 (by positivity)

/-- Overwriting a position of a list with a different value changes the
list. -/
theorem set_ne_self {l : Bytes} {i : Nat} {b c : Byte} (hi : l[i]? = some b) (hne : c ≠ b) :
    l.set i c ≠ l := by
  intro h
  have hlt : i < l.length := by
    rcases Nat.lt_or_ge i l.length with h1 | h1
    · exact h1
    · rw [List.getElem?_eq_none h1] at hi; cases hi
  have h1 : (l.set i c)[i]? = some c := List.getElem?_set_self hlt
  rw [h, hi] at h1
  exact hne (Option.some.inj h1).symm

theorem sep_not_mem_set {l : Bytes} {i : Nat} {c : Byte} (hl : (46 : Byte) ∉ l) (hc : c ≠ 46) :
    (46 : Byte) ∉ l.set i c := fun hm =>
  (List.mem_or_eq_of_mem_set hm).elim hl (fun e => hc e.symm)

/-- Decoding a token whose header or payload segment differs from the one that
was signed: when `Verify` accepts the signature for the signed data only,
`Decode` returns `ErrInvalidSignature`. -/
theorem decode_changed_segments {τ V : Type} (J : JSONCodec V) (R : Binder τ)
    (alg : Algorithm) (signer : Signer) (obj : τ) (h p h' p' s : Bytes)
    (hh : (46 : Byte) ∉ h') (hp : (46 : Byte) ∉ p') (hs : (46 : Byte) ∉ s)
    (hunf : ∀ data dec, signer.Verify data s = .ok dec → data = h ++ tokenSep ++ p)
    (hne : h' ++ tokenSep ++ p' ≠ h ++ tokenSep ++ p) :
    (Decode J R alg signer (h' ++ tokenSep ++ p' ++ tokenSep ++ s) obj).ret =
      .error Error.ErrInvalidSignature := by
  have hsplit := DecodeUnverifiedToken_join_ok hh hp hs
  cases hver : signer.Verify (h' ++ tokenSep ++ p') s with
  | error e => exact Decode_ret_of_verify_error J R alg signer _ obj _ e hsplit hver
  | ok dec => exact absurd (hunf _ _ hver) hne

/-- Every JSON text written by `miniJSON` is non-empty. -/
theorem miniJSON_ne_nil (o : Obj Unit) (b : Bytes) (h : miniJSON.Marshal o = .ok b) : b ≠ [] := by
  cases o with
  | token t => cases h
  | other v => cases h
  | header hd =>
    have e : b = headerJSON hd.Algorithm := (Except.ok.inj h).symm
    subst e
    cases hd.Algorithm <;> decide
  | claims c =>
    have e : b = ofString ("\x7b\"iss\":\"" ++ c.Issuer ++ "\"\x7d") := (Except.ok.inj h).symm
    subst e
    intro h0
    have hl := congrArg List.length h0
    simp only [ofString, List.length_map, String.toList, String.data_append,
      List.length_append, List.length_nil] at hl
    simp only [List.length_cons, List.length_nil] at hl
    omega

/-- The sample signer's `Verify` accepts what its `Sign` produces, and returns
the decoded signature. -/
theorem tagSigner_verify_sign (key data sig : Bytes)
    (h : (tagSigner key).Sign data = .ok sig) :
    (tagSigner key).Verify data sig = .ok (key ++ data) := by
  have e : sig = b64Encode (key ++ data) := (Except.ok.inj h).symm
  subst e
  simp only [tagSigner, b64DecodeString_b64Encode, if_true]

/-- The sample signer's `Verify` accepts a signature only for the data it was
produced for. -/
theorem tagSigner_verify_only_signed (key data signed dec : Bytes)
    (h : (tagSigner key).Verify data (b64Encode (key ++ signed)) = .ok dec) :
    data = signed := by
  simp only [tagSigner, b64DecodeString_b64Encode] at h
  split at h
  · rename_i e
    exact (List.append_cancel_left e).symm
  · cases h

/-- The signer `rawSigner` accepts in `Verify` whatever its `Sign` produces. -/
theorem rawSigner_verify_sign (data sig : Bytes) (_h : rawSigner.Sign data = .ok sig) :
    rawSigner.Verify data sig = .ok sig := rfl

/-! ## Claims -/

/-- C1. If the token splits into three segments and `signer.Verify` returns an
error (any error) for the signing input and the signature segment, `Decode`
returns exactly `ErrInvalidSignature`, whatever the header and payload
segments contain. -/
theorem decode_verify_error {τ V : Type} (J : JSONCodec V) (R : Binder τ)
    (alg : Algorithm) (signer : Signer) (buf : Bytes) (obj : τ)
    (ut : UnverifiedToken) (e : Error)
    (hsplit : DecodeUnverifiedToken buf = .ok ut)
    (hver : signer.Verify (ut.Header ++ tokenSep ++ ut.Payload) ut.Signature = .error e) :
    (Decode J R alg signer buf obj).ret = .error Error.ErrInvalidSignature :=
  Decode_ret_of_verify_error J R alg signer buf obj ut e hsplit hver

/-- Witness for C1: the sample token decoded with a signer holding another
key. -/
theorem decode_verify_error_witness :
    DecodeUnverifiedToken sampleToken = .ok sampleSplit ∧
    (tagSigner (ofString "x")).Verify
        (sampleSplit.Header ++ tokenSep ++ sampleSplit.Payload) sampleSplit.Signature =
      .error Error.ErrInvalidSignature ∧
    (Decode miniJSON tokenBinder .HS256 (tagSigner (ofString "x")) sampleToken
        (emptyToken .HS256)).ret = .error Error.ErrInvalidSignature :=
  ⟨by decide, by decide,
    decode_verify_error miniJSON tokenBinder .HS256 (tagSigner (ofString "x")) sampleToken
      (emptyToken .HS256) sampleSplit Error.ErrInvalidSignature (by decide) (by decide)⟩

/-- C2. When the signature verifies and the header segment decodes to a header
whose algorithm differs from `alg`, `Decode` returns `ErrInvalidAlgorithm`;
and whenever `Decode` succeeds, the token split, its header segment decoded,
and the decoded header's algorithm equals `alg`. -/
theorem decode_algorithm_check {τ V : Type} (J : JSONCodec V) (R : Binder τ)
    (alg : Algorithm) (signer : Signer) (buf : Bytes) (obj : τ) :
    (∀ ut sig headerBuf header,
      DecodeUnverifiedToken buf = .ok ut →
      signer.Verify (ut.Header ++ tokenSep ++ ut.Payload) ut.Signature = .ok sig →
      b64DecodeString ut.Header = .ok headerBuf →
      J.UnmarshalHeader headerBuf = .ok header →
      header.Algorithm ≠ alg →
      (Decode J R alg signer buf obj).ret = .error Error.ErrInvalidAlgorithm) ∧
    ((Decode J R alg signer buf obj).ret = .nil →
      ∃ ut headerBuf header,
        DecodeUnverifiedToken buf = .ok ut ∧
        b64DecodeString ut.Header = .ok headerBuf ∧
        J.UnmarshalHeader headerBuf = .ok header ∧
        header.Algorithm = alg) := by
  constructor
  · intro ut sig headerBuf header hsplit hver hb hh hne
    unfold Decode
    simp only [hsplit, sliceTo_signingInput hsplit, hver, hb, hh, ne_eq]
    rw [if_pos (fun e => hne e.symm)]
  · intro h
    unfold Decode at h
    cases hsplit : DecodeUnverifiedToken buf with
    | error e => simp only [hsplit] at h; cases h
    | ok ut =>
      simp only [hsplit, sliceTo_signingInput hsplit] at h
      cases hver : signer.Verify (ut.Header ++ tokenSep ++ ut.Payload) ut.Signature with
      | error e => simp only [hver] at h; cases h
      | ok sig =>
        simp only [hver] at h
        cases hb : b64DecodeString ut.Header with
        | error e => simp only [hb] at h; cases h
        | ok headerBuf =>
          simp only [hb] at h
          cases hh : J.UnmarshalHeader headerBuf with
          | error e => simp only [hh] at h; cases h
          | ok header =>
            simp only [hh] at h
            by_cases ha : alg = header.Algorithm
            · exact ⟨ut, headerBuf, header, rfl, hb, hh, ha.symm⟩
            · rw [if_pos (by simpa using ha)] at h
              cases h

/-- Witness for C2: the sample token, whose header names `HS256`, is rejected
with `ErrInvalidAlgorithm` when decoded with `HS384`, and the header of a
successful decode names the decoding algorithm. -/
theorem decode_algorithm_check_witness :
    (Decode miniJSON tokenBinder .HS384 (tagSigner sampleKey) sampleToken
        (emptyToken .HS384)).ret = .error Error.ErrInvalidAlgorithm ∧
    ∃ ut headerBuf header,
      DecodeUnverifiedToken sampleToken = .ok ut ∧
      b64DecodeString ut.Header = .ok headerBuf ∧
      miniJSON.UnmarshalHeader headerBuf = .ok header ∧
      header.Algorithm = .HS256 :=
  ⟨(decode_algorithm_check miniJSON tokenBinder .HS384 (tagSigner sampleKey) sampleToken
      (emptyToken .HS384)).1 sampleSplit
      (sampleKey ++ (sampleSplit.Header ++ tokenSep ++ sampleSplit.Payload))
      (headerJSON .HS256) (Algorithm.Header .HS256)
      (by decide) (by decide) (by decide) (by decide) (by decide),
   (decode_algorithm_check miniJSON tokenBinder .HS256 (tagSigner sampleKey) sampleToken
      (emptyToken .HS384)).2 (by decide)⟩

/-- Counterexample for C3: the sample token is validly encoded under `HS256`;
with its header rewritten to name `HS384` and decoded with `HS384`, `Decode`
returns `ErrInvalidSignature` for a signer that rejects the signature and
succeeds for a signer whose `Verify` accepts it; in neither case the result is
`ErrInvalidAlgorithm`. -/
theorem algorithm_confusion_counterexample :
    (Encode miniJSON .HS256 (tagSigner sampleKey) (.claims (issuerClaims "a"))).ret =
      .ok sampleToken ∧
    (Decode miniJSON tokenBinder .HS384 (tagSigner sampleKey) rewrittenToken
        (emptyToken .HS256)).ret = .error Error.ErrInvalidSignature ∧
    (Decode miniJSON tokenBinder .HS384 rawSigner rewrittenToken
        (emptyToken .HS256)).ret = .nil ∧
    (Decode miniJSON tokenBinder .HS384 (tagSigner sampleKey) rewrittenToken
        (emptyToken .HS256)).ret ≠ .error Error.ErrInvalidAlgorithm ∧
    (Decode miniJSON tokenBinder .HS384 rawSigner rewrittenToken
        (emptyToken .HS256)).ret ≠ .error Error.ErrInvalidAlgorithm := by
  decide

/-- C3, amended. For a token whose header segment names the algorithm `alg`
it is decoded with (as after rewriting the header of a token signed under
another algorithm) and whose payload segment decodes, the outcome of `Decode`
into a `Token` is decided by the signature alone: `ErrInvalidSignature` when
`Verify` rejects it, success with header, payload and decoded signature bound
when `Verify` accepts it; the result is never `ErrInvalidAlgorithm`. -/
theorem decode_header_names_alg {V : Type} (J : JSONCodec V)
    (alg : Algorithm) (signer : Signer) (buf : Bytes) (obj : Token)
    (ut : UnverifiedToken) (headerBuf payloadBuf : Bytes) (header : Header) (payload : Claims)
    (hsplit : DecodeUnverifiedToken buf = .ok ut)
    (hb : b64DecodeString ut.Header = .ok headerBuf)
    (hh : J.UnmarshalHeader headerBuf = .ok header)
    (halg : header.Algorithm = alg)
    (hpb : b64DecodeString ut.Payload = .ok payloadBuf)
    (hp : J.UnmarshalClaims payloadBuf = .ok payload) :
    (∀ e, signer.Verify (ut.Header ++ tokenSep ++ ut.Payload) ut.Signature = .error e →
      (Decode J tokenBinder alg signer buf obj).ret = .error Error.ErrInvalidSignature) ∧
    (∀ sig, signer.Verify (ut.Header ++ tokenSep ++ ut.Payload) ut.Signature = .ok sig →
      (Decode J tokenBinder alg signer buf obj).ret = .nil ∧
      (Decode J tokenBinder alg signer buf obj).obj =
        { Header := header, Payload := payload, Signature := sig }) ∧
    (Decode J tokenBinder alg signer buf obj).ret ≠ .error Error.ErrInvalidAlgorithm := by
  have hacc : ∀ sig, signer.Verify (ut.Header ++ tokenSep ++ ut.Payload) ut.Signature = .ok sig →
      (Decode J tokenBinder alg signer buf obj).ret = .nil ∧
      (Decode J tokenBinder alg signer buf obj).obj =
        { Header := header, Payload := payload, Signature := sig } := by
    intro sig hver
    unfold Decode
    simp only [hsplit, sliceTo_signingInput hsplit, hver, hb, hh, halg, ne_eq,
      not_true_eq_false, if_false, tokenBinder, if_true, hpb, hp, and_self]
  refine ⟨fun e hver => Decode_ret_of_verify_error J tokenBinder alg signer buf obj ut e hsplit hver,
    hacc, ?_⟩
  cases hver : signer.Verify (ut.Header ++ tokenSep ++ ut.Payload) ut.Signature with
  | error e =>
    rw [Decode_ret_of_verify_error J tokenBinder alg signer buf obj ut e hsplit hver]
    simp
  | ok sig =>
    rw [(hacc sig hver).1]
    simp

/-- Witness for C3, amended: the rewritten sample token decoded with `HS384`. -/
theorem decode_header_names_alg_witness :
    (Decode miniJSON tokenBinder .HS384 (tagSigner sampleKey) rewrittenToken
        (emptyToken .HS256)).ret = .error Error.ErrInvalidSignature ∧
    (Decode miniJSON tokenBinder .HS384 rawSigner rewrittenToken
        (emptyToken .HS256)).obj =
      { Header := Algorithm.Header .HS384, Payload := issuerClaims "a",
        Signature := sampleSplit.Signature } :=
  ⟨(decode_header_names_alg miniJSON .HS384 (tagSigner sampleKey) rewrittenToken
      (emptyToken .HS256)
      { Header := b64Encode (headerJSON .HS384), Payload := sampleSplit.Payload,
        Signature := sampleSplit.Signature }
      (headerJSON .HS384) (ofString "\x7b\"iss\":\"a\"\x7d") (Algorithm.Header .HS384)
      (issuerClaims "a") (by decide) (by decide) (by decide) (by decide) (by decide)
      (by decide)).1 Error.ErrInvalidSignature (by decide),
   ((decode_header_names_alg miniJSON .HS384 rawSigner rewrittenToken
      (emptyToken .HS256)
      { Header := b64Encode (headerJSON .HS384), Payload := sampleSplit.Payload,
        Signature := sampleSplit.Signature }
      (headerJSON .HS384) (ofString "\x7b\"iss\":\"a\"\x7d") (Algorithm.Header .HS384)
      (issuerClaims "a") (by decide) (by decide) (by decide) (by decide) (by decide)
      (by decide)).2.1 sampleSplit.Signature (by decide)).2⟩

/-- Counterexample for C4: `rawSigner` accepts in `Verify` whatever its `Sign`
produces (lemma `rawSigner_verify_sign`), and `Encode` succeeds, but the
signature `a.b` contains the separator and `Decode` of the encoded token fails
at the split step. -/
theorem encode_decode_roundtrip_counterexample :
    rawSigner.Sign (ofString "eyJhbGciOiJIUzI1NiJ9.eyJpc3MiOiJhIn0") = .ok (ofString "a.b") ∧
    rawSigner.Verify (ofString "eyJhbGciOiJIUzI1NiJ9.eyJpc3MiOiJhIn0") (ofString "a.b") =
      .ok (ofString "a.b") ∧
    (Encode miniJSON .HS256 rawSigner (.claims (issuerClaims "a"))).ret =
      .ok (ofString "eyJhbGciOiJIUzI1NiJ9.eyJpc3MiOiJhIn0.a.b") ∧
    (Decode miniJSON claimsBinder .HS256 rawSigner
        (ofString "eyJhbGciOiJIUzI1NiJ9.eyJpc3MiOiJhIn0.a.b") (issuerClaims "")).ret =
      .error Error.ErrMalformedToken := by
  decide

/-- C4, amended. Round trip: when the JSON collaborator round-trips the header
of `alg` and the claims `c`, and `Sign` returns, for the signing input, a
signature free of the separator that `Verify` accepts, then `Encode` of `c`
succeeds with a token `tok`, and `Decode` of `tok` into a `Claims` target
succeeds and leaves `c` in the target. -/
theorem encode_decode_roundtrip {V : Type} (J : JSONCodec V) (alg : Algorithm) (signer : Signer)
    (c target : Claims) (headerJson payloadJson sig dec : Bytes)
    (hmh : J.Marshal (.header alg.Header) = .ok headerJson)
    (huh : J.UnmarshalHeader headerJson = .ok alg.Header)
    (hmp : J.Marshal (.claims c) = .ok payloadJson)
    (hup : J.UnmarshalClaims payloadJson = .ok c)
    (hs : signer.Sign (b64Encode headerJson ++ tokenSep ++ b64Encode payloadJson) = .ok sig)
    (hdot : (46 : Byte) ∉ sig)
    (hv : signer.Verify (b64Encode headerJson ++ tokenSep ++ b64Encode payloadJson) sig =
      .ok dec) :
    ∃ tok, (Encode J alg signer (.claims c)).ret = .ok tok ∧
      (Decode J claimsBinder alg signer tok target).ret = .nil ∧
      (Decode J claimsBinder alg signer tok target).obj = c := by
  have henc : (Encode J alg signer (.claims c)).ret = _ := Encode_of_ok hmh hmp hs
  refine ⟨_, henc, ?_⟩
  have hsplit := DecodeUnverifiedToken_join_ok (sep_not_mem_b64Encode headerJson)
    (sep_not_mem_b64Encode payloadJson) hdot
  unfold Decode
  simp only [hsplit, sliceTo_signingInput hsplit, hv, b64DecodeString_b64Encode, huh,
    Algorithm.Header, ne_eq, not_true_eq_false, if_false, claimsBinder, hup, and_self]

/-- Witness for C4, amended: the issuer `a` under `HS256` with the sample
signer. -/
theorem encode_decode_roundtrip_witness :
    ∃ tok, (Encode miniJSON .HS256 (tagSigner sampleKey) (.claims (issuerClaims "a"))).ret =
        .ok tok ∧
      (Decode miniJSON claimsBinder .HS256 (tagSigner sampleKey) tok (issuerClaims "")).ret =
        .nil ∧
      (Decode miniJSON claimsBinder .HS256 (tagSigner sampleKey) tok (issuerClaims "")).obj =
        issuerClaims "a" :=
  encode_decode_roundtrip miniJSON .HS256 (tagSigner sampleKey) (issuerClaims "a") (issuerClaims "")
    (headerJSON .HS256) (ofString "\x7b\"iss\":\"a\"\x7d") sampleSplit.Signature
    (sampleKey ++ (sampleSplit.Header ++ tokenSep ++ sampleSplit.Payload))
    (by decide) (by decide) (by decide) (by decide) (by decide) (by decide) (by decide)

/-- Counterexample for C5: in the sample token, validly encoded and signed by
a signer that accepts its signature for the signed data only, the byte at
position 34 lies in the payload segment and is the letter `n`; flipping its
bit 6 gives the separator, and `Decode` of the tampered token fails with the
malformed-token error, not with `ErrInvalidSignature`. -/
theorem tamper_detection_counterexample :
    (Encode miniJSON .HS256 (tagSigner sampleKey) (.claims (issuerClaims "a"))).ret =
      .ok sampleToken ∧
    sampleSplit.Header.length < 34 ∧
    34 < sampleSplit.Header.length + tokenSep.length + sampleSplit.Payload.length ∧
    sampleToken.get? 34 = some 110 ∧
    (flipBitAt sampleToken 34 6).get? 34 = some 46 ∧
    (Decode miniJSON tokenBinder .HS256 (tagSigner sampleKey) (flipBitAt sampleToken 34 6)
        (emptyToken .HS256)).ret = .error Error.ErrMalformedToken ∧
    (Decode miniJSON tokenBinder .HS256 (tagSigner sampleKey) (flipBitAt sampleToken 34 6)
        (emptyToken .HS256)).ret ≠ .error Error.ErrInvalidSignature := by
  decide

/-- C5, amended. Take a successfully encoded token that splits into three
segments, and a signer whose `Verify` accepts the token's signature only for
data that `Sign` was called on.  Flipping any single bit of a byte inside the
header segment or the payload segment makes `Decode` fail: with
`ErrInvalidSignature`, unless the flipped byte becomes the separator, in which
case the split step fails with the malformed-token error. -/
theorem tamper_detection {τ V : Type} (J : JSONCodec V) (R : Binder τ)
    (alg : Algorithm) (signer : Signer) (obj : Obj V) (target : τ)
    (tok : Bytes) (ut : UnverifiedToken) (i k : Nat)
    (henc : (Encode J alg signer obj).ret = .ok tok)
    (hsplit : DecodeUnverifiedToken tok = .ok ut)
    (hunf : ∀ data dec, signer.Verify data ut.Signature = .ok dec →
      Call.Sign data ∈ (Encode J alg signer obj).calls)
    (hk : k < 8)
    (hpos : i < ut.Header.length ∨
      (ut.Header.length < i ∧ i < ut.Header.length + tokenSep.length + ut.Payload.length)) :
    (Decode J R alg signer (flipBitAt tok i k) target).ret =
      if (flipBitAt tok i k).get? i = some 46 then .error Error.ErrMalformedToken
      else .error Error.ErrInvalidSignature := by
  obtain ⟨h, p, s⟩ := ut
  have h3 := DecodeUnverifiedToken_ok_iff.1 hsplit
  obtain ⟨-, hh, hp, hs⟩ := bytesSplit_three_iff.1 h3
  have hj : tok = h ++ tokenSep ++ p ++ tokenSep ++ s := DecodeUnverifiedToken_join hsplit
  obtain ⟨hcalls, -, -, -⟩ := Encode_split henc h3
  simp only at hpos hunf hj
  have hunf' : ∀ data dec, signer.Verify data s = .ok dec → data = h ++ tokenSep ++ p := by
    intro data dec hv
    have hm := hunf data dec hv
    rw [hcalls, List.mem_singleton] at hm
    exact Call.Sign.inj hm
  have hsl : tokenSep.length = 1 := rfl
  have hilt : i < tok.length := by
    rw [hj]; simp only [List.length_append]; omega
  -- the byte at position `i` and its flipped value
  obtain ⟨b, hb⟩ : ∃ b, tok[i]? = some b := ⟨tok[i], List.getElem?_eq_getElem hilt⟩
  have hflip : flipBitAt tok i k = tok.set i (flipBit k b) := by
    simp only [flipBitAt, List.get?_eq_getElem?, hb]
  have hget : (flipBitAt tok i k).get? i = some (flipBit k b) := by
    rw [hflip, List.get?_eq_getElem?]
    exact List.getElem?_set_self hilt
  rw [hget]
  -- the byte comes from the header segment or from the payload segment
  have hseg : (i < h.length ∧ h[i]? = some b) ∨
      ∃ j, i = h.length + 1 + j ∧ j < p.length ∧ p[j]? = some b := by
    rcases hpos with h1 | ⟨h1, h2⟩
    · left
      refine ⟨h1, ?_⟩
      rw [← hb, hj]; simp only [List.append_assoc]
      exact (List.getElem?_append_left h1).symm
    · right
      obtain ⟨j, rfl⟩ : ∃ j, i = h.length + 1 + j := ⟨i - h.length - 1, by omega⟩
      have hjl : j < p.length := by omega
      refine ⟨j, rfl, hjl, ?_⟩
      have e0 : tok[h.length + 1 + j]? = p[j]? := by
        rw [hj]
        simp only [List.append_assoc]
        rw [List.getElem?_append_right (by omega)]
        have e1 : h.length + 1 + j - h.length = j + 1 := by omega
        rw [e1]
        show (46 :: (p ++ (tokenSep ++ s)))[j + 1]? = _
        rw [List.getElem?_cons_succ, List.getElem?_append_left hjl]
      rw [← e0, hb]
  have hbsep : b ≠ 46 := by
    intro e
    subst e
    rcases hseg with ⟨_, hbh⟩ | ⟨j, _, _, hbp⟩
    · exact hh (List.getElem?_mem hbh)
    · exact hp (List.getElem?_mem hbp)
  by_cases hdot : flipBit k b = 46
  · -- the flipped byte is the separator: the token has four parts
    rw [if_pos (by rw [hdot])]
    have hcount : (bytesSplit 46 (flipBitAt tok i k)).length ≠ 3 := by
      have h2 : tok.count 46 = 2 := by
        have := bytesSplit_length 46 tok
        rw [h3] at this
        simpa using this.symm
      have hbi : tok[i] = b := by
        have := List.getElem?_eq_getElem hilt
        rw [hb] at this
        exact (Option.some.inj this).symm
      rw [bytesSplit_length, hflip, hdot, List.count_set _ _ _ _ hilt, h2, hbi]
      have : (b == (46 : Byte)) = false := by simpa using hbsep
      simp [this]
    rw [Decode_of_split_error J R alg signer _ target _
      (DecodeUnverifiedToken_error_iff.2 ⟨hcount, rfl⟩)]
  · -- the flipped byte is no separator: the signing input has changed
    rw [if_neg (by simpa using hdot)]
    have hne := flipBit_ne hk b
    rcases hseg with ⟨h1, hbh⟩ | ⟨j, rfl, hjl, hbp⟩
    · have hset : flipBitAt tok i k =
          h.set i (flipBit k b) ++ tokenSep ++ p ++ tokenSep ++ s := by
        rw [hflip, hj]
        simp only [List.append_assoc]
        rw [List.set_append_left _ _ h1]
      rw [hset]
      apply decode_changed_segments J R alg signer target h p _ _ s
        (sep_not_mem_set hh hdot) hp hs hunf'
      intro e
      simp only [List.append_assoc] at e
      exact set_ne_self hbh hne (List.append_cancel_right e)
    · have hset : flipBitAt tok (h.length + 1 + j) k =
          h ++ tokenSep ++ p.set j (flipBit k b) ++ tokenSep ++ s := by
        rw [hflip, hj]
        simp only [List.append_assoc]
        rw [List.set_append_right _ _ (by omega)]
        have e1 : h.length + 1 + j - h.length = j + 1 := by omega
        rw [e1]
        show h ++ (46 :: (p ++ (tokenSep ++ s))).set (j + 1) _ = _
        rw [List.set_cons_succ, List.set_append_left _ _ hjl]
        rfl
      rw [hset]
      apply decode_changed_segments J R alg signer target h p _ _ s
        hh (sep_not_mem_set hp hdot) hs hunf'
      intro e
      simp only [List.append_assoc] at e
      have e2 := List.append_cancel_left e
      exact set_ne_self hbp hne (List.append_cancel_left e2)

/-- Witness for C5, amended: bit 0 of the byte at position 3 of the sample
token, inside the header segment. -/
theorem tamper_detection_witness :
    (Encode miniJSON .HS256 (tagSigner sampleKey) (.claims (issuerClaims "a"))).ret =
      .ok sampleToken ∧
    DecodeUnverifiedToken sampleToken = .ok sampleSplit ∧
    (Decode miniJSON tokenBinder .HS256 (tagSigner sampleKey) (flipBitAt sampleToken 3 0)
        (emptyToken .HS256)).ret =
      if (flipBitAt sampleToken 3 0).get? 3 = some 46 then .error Error.ErrMalformedToken
      else .error Error.ErrInvalidSignature :=
  ⟨by decide, by decide,
    tamper_detection miniJSON tokenBinder .HS256 (tagSigner sampleKey)
      (.claims (issuerClaims "a")) (emptyToken .HS256) sampleToken sampleSplit 3 0
      (by decide) (by decide)
      (fun data dec hv => by
        have hsig : sampleSplit.Signature =
            b64Encode (sampleKey ++ (sampleSplit.Header ++ tokenSep ++ sampleSplit.Payload)) := by
          decide
        have hc : (Encode miniJSON .HS256 (tagSigner sampleKey)
            (.claims (issuerClaims "a"))).calls =
            [Call.Sign (sampleSplit.Header ++ tokenSep ++ sampleSplit.Payload)] := by decide
        rw [hsig] at hv
        rw [hc, tagSigner_verify_only_signed sampleKey data _ dec hv]
        exact List.mem_singleton.2 rfl)
      (by decide) (Or.inl (by decide))⟩

/-- C6. On every successful `Encode`, `Sign` is called exactly once, on the
unpadded base64url encoding of the header's JSON, the separator and the
unpadded base64url encoding of the payload's JSON, and the returned token
begins with those bytes followed by the separator. -/
theorem encode_signing_input {V : Type} (J : JSONCodec V) (alg : Algorithm)
    (signer : Signer) (obj : Obj V) (tok : Bytes)
    (h : (Encode J alg signer obj).ret = .ok tok) :
    ∃ header payload,
      J.Marshal (encodeObjs alg obj).1 = .ok header ∧
      J.Marshal (encodeObjs alg obj).2 = .ok payload ∧
      (Encode J alg signer obj).calls =
        [Call.Sign (b64Encode header ++ tokenSep ++ b64Encode payload)] ∧
      (b64Encode header ++ tokenSep ++ b64Encode payload ++ tokenSep) <+: tok ∧
      (b64Encode header).length = b64EncodedLen header.length ∧
      (b64Encode payload).length = b64EncodedLen payload.length := by
  obtain ⟨header, payload, sig, hh, hp, _, hc, ht⟩ := Encode_ok h
  exact ⟨header, payload, hh, hp, hc, ⟨sig, ht.symm⟩, b64Encode_length _, b64Encode_length _⟩

/-- Witness for C6: encoding the issuer `a` under `HS256`. -/
theorem encode_signing_input_witness :
    ∃ header payload,
      miniJSON.Marshal (encodeObjs .HS256 (.claims (issuerClaims "a"))).1 = .ok header ∧
      miniJSON.Marshal (encodeObjs .HS256 (.claims (issuerClaims "a"))).2 = .ok payload ∧
      (Encode miniJSON .HS256 (tagSigner sampleKey) (.claims (issuerClaims "a"))).calls =
        [Call.Sign (b64Encode header ++ tokenSep ++ b64Encode payload)] ∧
      (b64Encode header ++ tokenSep ++ b64Encode payload ++ tokenSep) <+: sampleToken ∧
      (b64Encode header).length = b64EncodedLen header.length ∧
      (b64Encode payload).length = b64EncodedLen payload.length :=
  encode_signing_input miniJSON .HS256 (tagSigner sampleKey) (.claims (issuerClaims "a"))
    sampleToken (by decide)

/-- Counterexample for C7: for the sample signer, whose `Sign` returns
base64url text, the token's third segment is what `Sign` returned and not the
base64url encoding of it. -/
theorem encode_signature_counterexample :
    (Encode miniJSON .HS256 (tagSigner sampleKey) (.claims (issuerClaims "a"))).ret =
      .ok sampleToken ∧
    (tagSigner sampleKey).Sign (sampleSplit.Header ++ tokenSep ++ sampleSplit.Payload) =
      .ok sampleSplit.Signature ∧
    sampleToken ≠ sampleSplit.Header ++ tokenSep ++ sampleSplit.Payload ++ tokenSep ++
      b64Encode sampleSplit.Signature := by
  decide

/-- C7, amended. On every successful `Encode` the returned token is the
signing input, the separator, and the byte string returned by
`signer.Sign` on the signing input, appended as it is: the third segment is
`Sign`'s result itself. -/
theorem encode_appends_signature {V : Type} (J : JSONCodec V) (alg : Algorithm)
    (signer : Signer) (obj : Obj V) (tok : Bytes)
    (h : (Encode J alg signer obj).ret = .ok tok) :
    ∃ signingInput sig,
      (Encode J alg signer obj).calls = [Call.Sign signingInput] ∧
      signer.Sign signingInput = .ok sig ∧
      tok = signingInput ++ tokenSep ++ sig := by
  obtain ⟨header, payload, sig, _, _, hs, hc, ht⟩ := Encode_ok h
  exact ⟨_, sig, hc, hs, ht⟩

/-- Witness for C7, amended: encoding the issuer `a` under `HS256`. -/
theorem encode_appends_signature_witness :
    ∃ signingInput sig,
      (Encode miniJSON .HS256 (tagSigner sampleKey) (.claims (issuerClaims "a"))).calls =
        [Call.Sign signingInput] ∧
      (tagSigner sampleKey).Sign signingInput = .ok sig ∧
      sampleToken = signingInput ++ tokenSep ++ sig :=
  encode_appends_signature miniJSON .HS256 (tagSigner sampleKey) (.claims (issuerClaims "a"))
    sampleToken (by decide)

/-- Counterexample for C8: with a signer whose `Sign` returns the raw bytes
`a.b`, `Encode` succeeds and its output splits into four parts. -/
theorem encode_segment_shape_counterexample :
    (Encode miniJSON .HS256 rawSigner (.claims (issuerClaims "a"))).ret =
      .ok (ofString "eyJhbGciOiJIUzI1NiJ9.eyJpc3MiOiJhIn0.a.b") ∧
    (bytesSplit 46 (ofString "eyJhbGciOiJIUzI1NiJ9.eyJpc3MiOiJhIn0.a.b")).length = 4 := by
  decide

/-- C8, amended. For a JSON encoder that never returns an empty text and a
signer whose `Sign` returns a non-empty string over `[A-Za-z0-9_-]`, every
successful `Encode` returns a token that splits on the separator into exactly
three segments, each non-empty and made of characters in `[A-Za-z0-9_-]`. -/
theorem encode_segment_shape {V : Type} (J : JSONCodec V) (alg : Algorithm)
    (signer : Signer) (obj : Obj V) (tok : Bytes)
    (hjson : ∀ o b, J.Marshal o = .ok b → b ≠ [])
    (hsig : ∀ data sig, signer.Sign data = .ok sig →
      sig ≠ [] ∧ ∀ c ∈ sig, isSegmentChar c = true)
    (h : (Encode J alg signer obj).ret = .ok tok) :
    ∃ t0 t1 t2, bytesSplit 46 tok = [t0, t1, t2] ∧
      ∀ t ∈ [t0, t1, t2], t ≠ [] ∧ ∀ c ∈ t, isSegmentChar c = true := by
  obtain ⟨header, payload, sig, hh, hp, hs, -, ht⟩ := Encode_ok h
  obtain ⟨hsne, hsch⟩ := hsig _ _ hs
  have hsdot : (46 : Byte) ∉ sig := fun hm => isSegmentChar_ne_sep (hsch _ hm) rfl
  refine ⟨b64Encode header, b64Encode payload, sig, ?_, ?_⟩
  · rw [ht]
    apply bytesSplit_three_iff.2
    exact ⟨by simp [tokenSep], sep_not_mem_b64Encode _, sep_not_mem_b64Encode _, hsdot⟩
  · intro t hm
    simp only [List.mem_cons, List.mem_singleton, List.not_mem_nil, or_false] at hm
    rcases hm with rfl | rfl | rfl
    · exact ⟨b64Encode_ne_nil (hjson _ _ hh), b64Encode_segmentChars _⟩
    · exact ⟨b64Encode_ne_nil (hjson _ _ hp), b64Encode_segmentChars _⟩
    · exact ⟨hsne, hsch⟩

/-- Witness for C8, amended: the sample signer and the sample token. -/
theorem encode_segment_shape_witness :
    ∃ t0 t1 t2, bytesSplit 46 sampleToken = [t0, t1, t2] ∧
      ∀ t ∈ [t0, t1, t2], t ≠ [] ∧ ∀ c ∈ t, isSegmentChar c = true :=
  encode_segment_shape miniJSON .HS256 (tagSigner sampleKey) (.claims (issuerClaims "a"))
    sampleToken miniJSON_ne_nil
    (fun data sig hs => by
      have e : sig = b64Encode (sampleKey ++ data) := (Except.ok.inj hs).symm
      subst e
      exact ⟨b64Encode_ne_nil (by simp [sampleKey, ofString]), b64Encode_segmentChars _⟩)
    (by decide)

/-- C9. For a signer whose `Verify` accepts what its `Sign` produces and a
successful `Encode`: when the output splits on the separator into `t0`, `t1`
and `t2`, `Verify` succeeds on `t0`, separator, `t1` with signature `t2`. -/
theorem encode_signature_verifies {V : Type} (J : JSONCodec V) (alg : Algorithm)
    (signer : Signer) (obj : Obj V) (tok t0 t1 t2 : Bytes)
    (hsv : ∀ data sig, signer.Sign data = .ok sig → ∃ dec, signer.Verify data sig = .ok dec)
    (h : (Encode J alg signer obj).ret = .ok tok)
    (hsplit : bytesSplit 46 tok = [t0, t1, t2]) :
    ∃ dec, signer.Verify (t0 ++ tokenSep ++ t1) t2 = .ok dec := by
  obtain ⟨-, hs, -, -⟩ := Encode_split h hsplit
  exact hsv _ _ hs

/-- Witness for C9: the sample token, signed and verified by the sample
signer. -/
theorem encode_signature_verifies_witness :
    bytesSplit 46 sampleToken =
      [sampleSplit.Header, sampleSplit.Payload, sampleSplit.Signature] ∧
    ∃ dec, (tagSigner sampleKey).Verify (sampleSplit.Header ++ tokenSep ++ sampleSplit.Payload)
      sampleSplit.Signature = .ok dec :=
  ⟨by decide,
    encode_signature_verifies miniJSON .HS256 (tagSigner sampleKey)
      (.claims (issuerClaims "a")) sampleToken sampleSplit.Header sampleSplit.Payload
      sampleSplit.Signature
      (fun data sig hs => ⟨sampleKey ++ data, tagSigner_verify_sign sampleKey data sig hs⟩)
      (by decide) (by decide)⟩

/-- C10. A token that does not split into exactly three parts makes the split
step fail with the malformed-token error; `Decode` returns that error, calls
no `Signer` method and leaves the target as it was. -/
theorem decode_wrong_segment_count {τ V : Type} (J : JSONCodec V) (R : Binder τ)
    (alg : Algorithm) (signer : Signer) (buf : Bytes) (obj : τ)
    (hcount : (bytesSplit 46 buf).length ≠ 3) :
    DecodeUnverifiedToken buf = .error Error.ErrMalformedToken ∧
    (Decode J R alg signer buf obj).ret = .error Error.ErrMalformedToken ∧
    (Decode J R alg signer buf obj).calls = [] ∧
    (Decode J R alg signer buf obj).obj = obj := by
  have hs : DecodeUnverifiedToken buf = .error Error.ErrMalformedToken :=
    DecodeUnverifiedToken_error_iff.2 ⟨hcount, rfl⟩
  rw [Decode_of_split_error J R alg signer buf obj _ hs]
  exact ⟨hs, rfl, rfl, rfl⟩

/-- Witness for C10: a token with four parts. -/
theorem decode_wrong_segment_count_witness :
    (bytesSplit 46 (ofString "a.b.c.d")).length ≠ 3 ∧
    DecodeUnverifiedToken (ofString "a.b.c.d") = .error Error.ErrMalformedToken ∧
    (Decode miniJSON tokenBinder .HS256 rawSigner (ofString "a.b.c.d")
        (emptyToken .HS256)).ret = .error Error.ErrMalformedToken ∧
    (Decode miniJSON tokenBinder .HS256 rawSigner (ofString "a.b.c.d")
        (emptyToken .HS256)).calls = [] ∧
    (Decode miniJSON tokenBinder .HS256 rawSigner (ofString "a.b.c.d")
        (emptyToken .HS256)).obj = emptyToken .HS256 :=
  ⟨by decide,
    decode_wrong_segment_count miniJSON tokenBinder .HS256 rawSigner (ofString "a.b.c.d")
      (emptyToken .HS256) (by decide)⟩

/-! ## Lemmas: the stages of `Decode` -/

/-- The `Verify` call that `Decode` makes for a token with spans `ut`. -/
theorem Decode_calls_of_split {τ V : Type} (J : JSONCodec V) (R : Binder τ)
    (alg : Algorithm) (signer : Signer) (buf : Bytes) (obj : τ) (ut : UnverifiedToken)
    (hsplit : DecodeUnverifiedToken buf = .ok ut) :
    (Decode J R alg signer buf obj).calls =
      [Call.Verify (ut.Header ++ tokenSep ++ ut.Payload) ut.Signature] := by
  unfold Decode
  simp only [hsplit, sliceTo_signingInput hsplit]
  split
  · rfl
  · split
    · rfl
    · split
      · rfl
      · split
        · rfl
        · split
          · rfl
          · split
            · rfl
            · split
              · rfl
              · split
                · rfl
                · split <;> rfl

/-- Function `Decode` when the header segment is not base64url text. -/
theorem Decode_of_header_b64_error {τ V : Type} (J : JSONCodec V) (R : Binder τ)
    (alg : Algorithm) (signer : Signer) (buf : Bytes) (obj : τ)
    (ut : UnverifiedToken) (sig : Bytes) (e : Error)
    (hsplit : DecodeUnverifiedToken buf = .ok ut)
    (hver : signer.Verify (ut.Header ++ tokenSep ++ ut.Payload) ut.Signature = .ok sig)
    (hb : b64DecodeString ut.Header = .error e) :
    Decode J R alg signer buf obj =
      ⟨.error e, obj, [Call.Verify (ut.Header ++ tokenSep ++ ut.Payload) ut.Signature]⟩ := by
  unfold Decode
  simp only [hsplit, sliceTo_signingInput hsplit, hver, hb]

/-- Function `Decode` when the header bytes are not JSON for a `Header`. -/
theorem Decode_of_header_json_error {τ V : Type} (J : JSONCodec V) (R : Binder τ)
    (alg : Algorithm) (signer : Signer) (buf : Bytes) (obj : τ)
    (ut : UnverifiedToken) (sig headerBuf : Bytes) (e : Error)
    (hsplit : DecodeUnverifiedToken buf = .ok ut)
    (hver : signer.Verify (ut.Header ++ tokenSep ++ ut.Payload) ut.Signature = .ok sig)
    (hb : b64DecodeString ut.Header = .ok headerBuf)
    (hh : J.UnmarshalHeader headerBuf = .error e) :
    Decode J R alg signer buf obj =
      ⟨.error e, obj, [Call.Verify (ut.Header ++ tokenSep ++ ut.Payload) ut.Signature]⟩ := by
  unfold Decode
  simp only [hsplit, sliceTo_signingInput hsplit, hver, hb, hh]

/-- Function `Decode` when the decoded header names another algorithm. -/
theorem Decode_of_alg_mismatch {τ V : Type} (J : JSONCodec V) (R : Binder τ)
    (alg : Algorithm) (signer : Signer) (buf : Bytes) (obj : τ)
    (ut : UnverifiedToken) (sig headerBuf : Bytes) (header : Header)
    (hsplit : DecodeUnverifiedToken buf = .ok ut)
    (hver : signer.Verify (ut.Header ++ tokenSep ++ ut.Payload) ut.Signature = .ok sig)
    (hb : b64DecodeString ut.Header = .ok headerBuf)
    (hh : J.UnmarshalHeader headerBuf = .ok header)
    (hne : header.Algorithm ≠ alg) :
    Decode J R alg signer buf obj =
      ⟨.error Error.ErrInvalidAlgorithm, obj,
        [Call.Verify (ut.Header ++ tokenSep ++ ut.Payload) ut.Signature]⟩ := by
  unfold Decode
  simp only [hsplit, sliceTo_signingInput hsplit, hver, hb, hh, ne_eq]
  rw [if_pos (fun e => hne e.symm)]

/-- Function `Decode` once the algorithm check has passed: what remains are
the binding of the header, the decoding and binding of the payload, and the
binding of the signature. -/
theorem Decode_of_checked {τ V : Type} (J : JSONCodec V) (R : Binder τ)
    (alg : Algorithm) (signer : Signer) (buf : Bytes) (obj : τ)
    (ut : UnverifiedToken) (sig headerBuf : Bytes) (header : Header)
    (hsplit : DecodeUnverifiedToken buf = .ok ut)
    (hver : signer.Verify (ut.Header ++ tokenSep ++ ut.Payload) ut.Signature = .ok sig)
    (hb : b64DecodeString ut.Header = .ok headerBuf)
    (hh : J.UnmarshalHeader headerBuf = .ok header)
    (halg : header.Algorithm = alg) :
    Decode J R alg signer buf obj =
      match R.decodeToObjOrFieldWithTag headerBuf obj "header" (.header header) with
      | (obj1, some err) =>
          ⟨.error err, obj1, [Call.Verify (ut.Header ++ tokenSep ++ ut.Payload) ut.Signature]⟩
      | (obj1, none) =>
        match b64DecodeString ut.Payload with
        | .error err =>
            ⟨.error err, obj1, [Call.Verify (ut.Header ++ tokenSep ++ ut.Payload) ut.Signature]⟩
        | .ok payloadBuf =>
          match J.UnmarshalClaims payloadBuf with
          | .error err =>
              ⟨.error err, obj1,
                [Call.Verify (ut.Header ++ tokenSep ++ ut.Payload) ut.Signature]⟩
          | .ok payload =>
            match R.decodeToObjOrFieldWithTag payloadBuf obj1 "payload" (.payload payload) with
            | (obj2, some err) =>
                ⟨.error err, obj2,
                  [Call.Verify (ut.Header ++ tokenSep ++ ut.Payload) ut.Signature]⟩
            | (obj2, none) =>
              match R.getFieldWithTag obj2 "signature" with
              | some field =>
                  ⟨.nil, field sig,
                    [Call.Verify (ut.Header ++ tokenSep ++ ut.Payload) ut.Signature]⟩
              | none =>
                  ⟨.nil, obj2,
                    [Call.Verify (ut.Header ++ tokenSep ++ ut.Payload) ut.Signature]⟩ := by
  unfold Decode
  simp only [hsplit, sliceTo_signingInput hsplit, hver, hb, hh, halg, ne_eq,
    not_true_eq_false, if_false]

/-- The steps of `Decode` up to the algorithm check: either one of them fails
and the target is returned as it was, or all of them pass. -/
theorem Decode_early {τ V : Type} (J : JSONCodec V) (R : Binder τ)
    (alg : Algorithm) (signer : Signer) (buf : Bytes) (obj : τ) :
    ((Decode J R alg signer buf obj).ret ≠ .nil ∧ (Decode J R alg signer buf obj).obj = obj) ∨
    ∃ ut sig headerBuf header,
      DecodeUnverifiedToken buf = .ok ut ∧
      signer.Verify (ut.Header ++ tokenSep ++ ut.Payload) ut.Signature = .ok sig ∧
      b64DecodeString ut.Header = .ok headerBuf ∧
      J.UnmarshalHeader headerBuf = .ok header ∧
      header.Algorithm = alg := by
  cases hsplit : DecodeUnverifiedToken buf with
  | error e =>
    left
    rw [Decode_of_split_error J R alg signer buf obj e hsplit]
    exact ⟨by simp, rfl⟩
  | ok ut =>
    cases hver : signer.Verify (ut.Header ++ tokenSep ++ ut.Payload) ut.Signature with
    | error e =>
      left
      refine ⟨?_, ?_⟩
      · rw [Decode_ret_of_verify_error J R alg signer buf obj ut e hsplit hver]; simp
      · unfold Decode
        simp only [hsplit, sliceTo_signingInput hsplit, hver]
    | ok sig =>
      cases hb : b64DecodeString ut.Header with
      | error e =>
        left
        rw [Decode_of_header_b64_error J R alg signer buf obj ut sig e hsplit hver hb]
        exact ⟨by simp, rfl⟩
      | ok headerBuf =>
        cases hh : J.UnmarshalHeader headerBuf with
        | error e =>
          left
          rw [Decode_of_header_json_error J R alg signer buf obj ut sig headerBuf e hsplit hver
            hb hh]
          exact ⟨by simp, rfl⟩
        | ok header =>
          by_cases halg : header.Algorithm = alg
          · exact Or.inr ⟨ut, sig, headerBuf, header, rfl, hver, hb, hh, halg⟩
          · left
            rw [Decode_of_alg_mismatch J R alg signer buf obj ut sig headerBuf header hsplit
              hver hb hh halg]
            exact ⟨by simp, rfl⟩

/-- The quantum decoder fails with `CorruptInputError` only. -/
theorem decodeQuanta_error : ∀ (s : Bytes) (e : Error),
    decodeQuanta s = .error e → e = Error.CorruptInputError
  | c0 :: c1 :: c2 :: c3 :: rest, e, h => by
    simp only [decodeQuanta] at h
    split at h
    · split at h
      · cases h
      · rename_i e1 he
        cases h
        exact decodeQuanta_error rest _ he
    · cases h; rfl
  | [c0, c1, c2], e, h => by
    simp only [decodeQuanta] at h
    split at h
    · cases h
    · cases h; rfl
  | [c0, c1], e, h => by
    simp only [decodeQuanta] at h
    split at h
    · cases h
    · cases h; rfl
  | [_], e, h => by
    simp only [decodeQuanta] at h
    cases h; rfl
  | [], e, h => by
    simp only [decodeQuanta] at h
    cases h

/-- The base64url decoder fails with `CorruptInputError` only. -/
theorem b64DecodeString_error {s : Bytes} {e : Error} (h : b64DecodeString s = .error e) :
    e = Error.CorruptInputError :=
  decodeQuanta_error _ e h

/-- Function `Decode` never ends in a run-time panic: the slice expression is
in range whenever the split step succeeds. -/
theorem Decode_ne_panic {τ V : Type} (J : JSONCodec V) (R : Binder τ)
    (alg : Algorithm) (signer : Signer) (buf : Bytes) (obj : τ) :
    (Decode J R alg signer buf obj).ret ≠ .panic := by
  cases hsplit : DecodeUnverifiedToken buf with
  | error e =>
    rw [Decode_of_split_error J R alg signer buf obj e hsplit]
    simp
  | ok ut =>
    unfold Decode
    simp only [hsplit, sliceTo_signingInput hsplit]
    repeat' split
    all_goals simp

/-! ## Claims: target, errors and arguments -/

/-- Counterexample for C11: the token `badPayloadToken` is correctly signed and
its header names `HS256`, but its payload segment is not base64url text.
`Decode` into a `Token` whose header named `HS384` fails, and the target's
header has been overwritten with the decoded one. -/
theorem decode_failure_target_counterexample :
    (Decode miniJSON tokenBinder .HS256 (tagSigner sampleKey) badPayloadToken
        (emptyToken .HS384)).ret = .error Error.CorruptInputError ∧
    (Decode miniJSON tokenBinder .HS256 (tagSigner sampleKey) badPayloadToken
        (emptyToken .HS384)).obj = emptyToken .HS256 ∧
    (Decode miniJSON tokenBinder .HS256 (tagSigner sampleKey) badPayloadToken
        (emptyToken .HS384)).obj ≠ emptyToken .HS384 := by
  decide

/-- C11, amended. A failing `Decode` into a `Claims` target leaves the target
exactly as it was.  A failing `Decode` into a `Token` target leaves it exactly
as it was, except when the failure is in the decoding of the payload (segment
not base64url, or bytes not JSON for `Claims`): the header is bound before
the payload is decoded, so the target then holds the decoded header, with its
payload and signature fields as before. -/
theorem decode_failure_target {V : Type} (J : JSONCodec V) (alg : Algorithm)
    (signer : Signer) (buf : Bytes) :
    (∀ obj : Claims, (Decode J claimsBinder alg signer buf obj).ret ≠ .nil →
      (Decode J claimsBinder alg signer buf obj).obj = obj) ∧
    (∀ obj : Token, (Decode J tokenBinder alg signer buf obj).ret ≠ .nil →
      (Decode J tokenBinder alg signer buf obj).obj = obj ∨
      ∃ ut sig headerBuf header,
        DecodeUnverifiedToken buf = .ok ut ∧
        signer.Verify (ut.Header ++ tokenSep ++ ut.Payload) ut.Signature = .ok sig ∧
        b64DecodeString ut.Header = .ok headerBuf ∧
        J.UnmarshalHeader headerBuf = .ok header ∧
        header.Algorithm = alg ∧
        ((∃ e, b64DecodeString ut.Payload = .error e) ∨
          ∃ payloadBuf e, b64DecodeString ut.Payload = .ok payloadBuf ∧
            J.UnmarshalClaims payloadBuf = .error e) ∧
        (Decode J tokenBinder alg signer buf obj).obj =
          { Header := header, Payload := obj.Payload, Signature := obj.Signature }) := by
  constructor
  · intro obj hfail
    rcases Decode_early J claimsBinder alg signer buf obj with ⟨-, h⟩ |
      ⟨ut, sig, headerBuf, header, hsplit, hver, hb, hh, halg⟩
    · exact h
    · rw [Decode_of_checked J claimsBinder alg signer buf obj ut sig headerBuf header hsplit
        hver hb hh halg] at hfail ⊢
      simp only [claimsBinder] at hfail ⊢
      cases hpb : b64DecodeString ut.Payload with
      | error e => simp only [hpb]
      | ok payloadBuf =>
        simp only [hpb] at hfail ⊢
        cases hp : J.UnmarshalClaims payloadBuf with
        | error e => simp only [hp]
        | ok payload =>
          simp only [hp] at hfail
          exact absurd rfl hfail
  · intro obj hfail
    rcases Decode_early J tokenBinder alg signer buf obj with ⟨-, h⟩ |
      ⟨ut, sig, headerBuf, header, hsplit, hver, hb, hh, halg⟩
    · exact Or.inl h
    · right
      refine ⟨ut, sig, headerBuf, header, hsplit, hver, hb, hh, halg, ?_⟩
      rw [Decode_of_checked J tokenBinder alg signer buf obj ut sig headerBuf header hsplit
        hver hb hh halg] at hfail ⊢
      simp only [tokenBinder, if_true] at hfail ⊢
      cases hpb : b64DecodeString ut.Payload with
      | error e => exact ⟨Or.inl ⟨e, rfl⟩, by simp only [hpb]⟩
      | ok payloadBuf =>
        simp only [hpb] at hfail ⊢
        cases hp : J.UnmarshalClaims payloadBuf with
        | error e => exact ⟨Or.inr ⟨payloadBuf, e, rfl, hp⟩, by simp only [hp]⟩
        | ok payload =>
          simp only [hp] at hfail
          exact absurd rfl hfail

/-- Witness for C11, amended: the token with the undecodable payload segment,
decoded into a `Claims` target and into a `Token` target. -/
theorem decode_failure_target_witness :
    (Decode miniJSON claimsBinder .HS256 (tagSigner sampleKey) badPayloadToken
        (issuerClaims "z")).obj = issuerClaims "z" ∧
    ((Decode miniJSON tokenBinder .HS256 (tagSigner sampleKey) badPayloadToken
        (emptyToken .HS384)).obj = emptyToken .HS384 ∨
      ∃ ut sig headerBuf header,
        DecodeUnverifiedToken badPayloadToken = .ok ut ∧
        (tagSigner sampleKey).Verify (ut.Header ++ tokenSep ++ ut.Payload) ut.Signature =
          .ok sig ∧
        b64DecodeString ut.Header = .ok headerBuf ∧
        miniJSON.UnmarshalHeader headerBuf = .ok header ∧
        header.Algorithm = .HS256 ∧
        ((∃ e, b64DecodeString ut.Payload = .error e) ∨
          ∃ payloadBuf e, b64DecodeString ut.Payload = .ok payloadBuf ∧
            miniJSON.UnmarshalClaims payloadBuf = .error e) ∧
        (Decode miniJSON tokenBinder .HS256 (tagSigner sampleKey) badPayloadToken
            (emptyToken .HS384)).obj =
          { Header := header, Payload := (emptyToken .HS384).Payload,
            Signature := (emptyToken .HS384).Signature }) :=
  ⟨(decode_failure_target miniJSON .HS256 (tagSigner sampleKey) badPayloadToken).1
      (issuerClaims "z") (by decide),
   (decode_failure_target miniJSON .HS256 (tagSigner sampleKey) badPayloadToken).2
      (emptyToken .HS384) (by decide)⟩

/-- C12. A `Decode` that fails in the split, the signature verification, the
decoding of the header or the algorithm check has run none of the binding
steps: whatever the binding layer and the target, the target is returned as it
was. -/
theorem decode_early_failure_frame {τ V : Type} (J : JSONCodec V) (R : Binder τ)
    (alg : Algorithm) (signer : Signer) (buf : Bytes) (obj : τ) :
    (∀ e, DecodeUnverifiedToken buf = .error e →
      (Decode J R alg signer buf obj).ret ≠ .nil ∧
      (Decode J R alg signer buf obj).obj = obj) ∧
    (∀ ut e, DecodeUnverifiedToken buf = .ok ut →
      signer.Verify (ut.Header ++ tokenSep ++ ut.Payload) ut.Signature = .error e →
      (Decode J R alg signer buf obj).ret ≠ .nil ∧
      (Decode J R alg signer buf obj).obj = obj) ∧
    (∀ ut sig e, DecodeUnverifiedToken buf = .ok ut →
      signer.Verify (ut.Header ++ tokenSep ++ ut.Payload) ut.Signature = .ok sig →
      b64DecodeString ut.Header = .error e →
      (Decode J R alg signer buf obj).ret ≠ .nil ∧
      (Decode J R alg signer buf obj).obj = obj) ∧
    (∀ ut sig headerBuf e, DecodeUnverifiedToken buf = .ok ut →
      signer.Verify (ut.Header ++ tokenSep ++ ut.Payload) ut.Signature = .ok sig →
      b64DecodeString ut.Header = .ok headerBuf →
      J.UnmarshalHeader headerBuf = .error e →
      (Decode J R alg signer buf obj).ret ≠ .nil ∧
      (Decode J R alg signer buf obj).obj = obj) ∧
    (∀ ut sig headerBuf header, DecodeUnverifiedToken buf = .ok ut →
      signer.Verify (ut.Header ++ tokenSep ++ ut.Payload) ut.Signature = .ok sig →
      b64DecodeString ut.Header = .ok headerBuf →
      J.UnmarshalHeader headerBuf = .ok header →
      header.Algorithm ≠ alg →
      (Decode J R alg signer buf obj).ret ≠ .nil ∧
      (Decode J R alg signer buf obj).obj = obj) := by
  refine ⟨?_, ?_, ?_, ?_, ?_⟩
  · intro e hsplit
    rw [Decode_of_split_error J R alg signer buf obj e hsplit]
    exact ⟨by simp, rfl⟩
  · intro ut e hsplit hver
    refine ⟨?_, ?_⟩
    · rw [Decode_ret_of_verify_error J R alg signer buf obj ut e hsplit hver]; simp
    · unfold Decode
      simp only [hsplit, sliceTo_signingInput hsplit, hver]
  · intro ut sig e hsplit hver hb
    rw [Decode_of_header_b64_error J R alg signer buf obj ut sig e hsplit hver hb]
    exact ⟨by simp, rfl⟩
  · intro ut sig headerBuf e hsplit hver hb hh
    rw [Decode_of_header_json_error J R alg signer buf obj ut sig headerBuf e hsplit hver hb hh]
    exact ⟨by simp, rfl⟩
  · intro ut sig headerBuf header hsplit hver hb hh hne
    rw [Decode_of_alg_mismatch J R alg signer buf obj ut sig headerBuf header hsplit hver hb
      hh hne]
    exact ⟨by simp, rfl⟩

/-- Witness for C12: a token with four parts, the sample token under a wrong
key, the token with an undecodable header, and the sample token decoded with
`HS384`, each into a `Token` that is returned as it was. -/
theorem decode_early_failure_frame_witness :
    (Decode miniJSON tokenBinder .HS256 (tagSigner sampleKey) (ofString "a.b.c.d")
        (emptyToken .HS512)).obj = emptyToken .HS512 ∧
    (Decode miniJSON tokenBinder .HS256 (tagSigner (ofString "x")) sampleToken
        (emptyToken .HS512)).obj = emptyToken .HS512 ∧
    (Decode miniJSON tokenBinder .HS256 (tagSigner sampleKey) badHeaderToken
        (emptyToken .HS512)).obj = emptyToken .HS512 ∧
    (Decode miniJSON tokenBinder .HS384 (tagSigner sampleKey) sampleToken
        (emptyToken .HS512)).obj = emptyToken .HS512 :=
  ⟨((decode_early_failure_frame miniJSON tokenBinder .HS256 (tagSigner sampleKey)
      (ofString "a.b.c.d") (emptyToken .HS512)).1 Error.ErrMalformedToken (by decide)).2,
   ((decode_early_failure_frame miniJSON tokenBinder .HS256 (tagSigner (ofString "x"))
      sampleToken (emptyToken .HS512)).2.1 sampleSplit Error.ErrInvalidSignature
      (by decide) (by decide)).2,
   ((decode_early_failure_frame miniJSON tokenBinder .HS256 (tagSigner sampleKey)
      badHeaderToken (emptyToken .HS512)).2.2.1
      { Header := ofString "!!!!", Payload := sampleSplit.Payload,
        Signature := b64Encode (sampleKey ++ (ofString "!!!!" ++ tokenSep ++ sampleSplit.Payload)) }
      (sampleKey ++ (ofString "!!!!" ++ tokenSep ++ sampleSplit.Payload))
      Error.CorruptInputError (by decide) (by decide) (by decide)).2,
   ((decode_early_failure_frame miniJSON tokenBinder .HS384 (tagSigner sampleKey)
      sampleToken (emptyToken .HS512)).2.2.2.2 sampleSplit
      (sampleKey ++ (sampleSplit.Header ++ tokenSep ++ sampleSplit.Payload))
      (headerJSON .HS256) (Algorithm.Header .HS256)
      (by decide) (by decide) (by decide) (by decide) (by decide)).2⟩

/-- Counterexample for C13: the tokens `badHeaderToken` and `badPayloadToken`
carry a signature that verifies and a header or payload segment that is not
base64url text; `Decode` returns the error of the base64 decoder,
`CorruptInputError`, not the malformed-token error. -/
theorem decode_undecodable_segment_counterexample :
    (Decode miniJSON tokenBinder .HS256 (tagSigner sampleKey) badHeaderToken
        (emptyToken .HS256)).ret = .error Error.CorruptInputError ∧
    (Decode miniJSON tokenBinder .HS256 (tagSigner sampleKey) badPayloadToken
        (emptyToken .HS256)).ret = .error Error.CorruptInputError ∧
    (Decode miniJSON tokenBinder .HS256 (tagSigner sampleKey) badHeaderToken
        (emptyToken .HS256)).ret ≠ .error Error.ErrMalformedToken ∧
    (Decode miniJSON tokenBinder .HS256 (tagSigner sampleKey) badPayloadToken
        (emptyToken .HS256)).ret ≠ .error Error.ErrMalformedToken := by
  decide

/-- C13, amended. For a token whose signature verifies, `Decode` fails when
the header segment or the payload segment is not base64url text, or decodes
to bytes that are not JSON for `Header` or `Claims`; it never succeeds with
empty claims.  The error returned is the one of the failing collaborator,
passed on unchanged: `CorruptInputError` of the base64 decoder, or the error
of the JSON decoder. -/
theorem decode_undecodable_segment {τ V : Type} (J : JSONCodec V) (R : Binder τ)
    (alg : Algorithm) (signer : Signer) (buf : Bytes) (obj : τ)
    (ut : UnverifiedToken) (sig : Bytes)
    (hsplit : DecodeUnverifiedToken buf = .ok ut)
    (hver : signer.Verify (ut.Header ++ tokenSep ++ ut.Payload) ut.Signature = .ok sig) :
    (∀ e, b64DecodeString ut.Header = .error e →
      (Decode J R alg signer buf obj).ret = .error Error.CorruptInputError) ∧
    (∀ headerBuf e, b64DecodeString ut.Header = .ok headerBuf →
      J.UnmarshalHeader headerBuf = .error e →
      (Decode J R alg signer buf obj).ret = .error e) ∧
    (∀ headerBuf header obj1 e, b64DecodeString ut.Header = .ok headerBuf →
      J.UnmarshalHeader headerBuf = .ok header → header.Algorithm = alg →
      R.decodeToObjOrFieldWithTag headerBuf obj "header" (.header header) = (obj1, none) →
      b64DecodeString ut.Payload = .error e →
      (Decode J R alg signer buf obj).ret = .error Error.CorruptInputError) ∧
    (∀ headerBuf header obj1 payloadBuf e, b64DecodeString ut.Header = .ok headerBuf →
      J.UnmarshalHeader headerBuf = .ok header → header.Algorithm = alg →
      R.decodeToObjOrFieldWithTag headerBuf obj "header" (.header header) = (obj1, none) →
      b64DecodeString ut.Payload = .ok payloadBuf →
      J.UnmarshalClaims payloadBuf = .error e →
      (Decode J R alg signer buf obj).ret = .error e) := by
  refine ⟨?_, ?_, ?_, ?_⟩
  · intro e hb
    rw [Decode_of_header_b64_error J R alg signer buf obj ut sig e hsplit hver hb,
      b64DecodeString_error hb]
  · intro headerBuf e hb hh
    rw [Decode_of_header_json_error J R alg signer buf obj ut sig headerBuf e hsplit hver hb hh]
  · intro headerBuf header obj1 e hb hh halg hbind hpb
    rw [Decode_of_checked J R alg signer buf obj ut sig headerBuf header hsplit hver hb hh halg]
    simp only [hbind, hpb, b64DecodeString_error hpb]
  · intro headerBuf header obj1 payloadBuf e hb hh halg hbind hpb hp
    rw [Decode_of_checked J R alg signer buf obj ut sig headerBuf header hsplit hver hb hh halg]
    simp only [hbind, hpb, hp]

/-- Witness for C13, amended: the tokens with an undecodable header segment
and with an undecodable payload segment. -/
theorem decode_undecodable_segment_witness :
    (Decode miniJSON tokenBinder .HS256 (tagSigner sampleKey) badHeaderToken
        (emptyToken .HS256)).ret = .error Error.CorruptInputError ∧
    (Decode miniJSON tokenBinder .HS256 (tagSigner sampleKey) badPayloadToken
        (emptyToken .HS256)).ret = .error Error.CorruptInputError :=
  ⟨(decode_undecodable_segment miniJSON tokenBinder .HS256 (tagSigner sampleKey)
      badHeaderToken (emptyToken .HS256)
      { Header := ofString "!!!!", Payload := sampleSplit.Payload,
        Signature := b64Encode (sampleKey ++ (ofString "!!!!" ++ tokenSep ++ sampleSplit.Payload)) }
      (sampleKey ++ (ofString "!!!!" ++ tokenSep ++ sampleSplit.Payload))
      (by decide) (by decide)).1 Error.CorruptInputError (by decide),
   (decode_undecodable_segment miniJSON tokenBinder .HS256 (tagSigner sampleKey)
      badPayloadToken (emptyToken .HS256)
      { Header := sampleSplit.Header, Payload := ofString "!!!!",
        Signature := b64Encode (sampleKey ++ (sampleSplit.Header ++ tokenSep ++ ofString "!!!!")) }
      (sampleKey ++ (sampleSplit.Header ++ tokenSep ++ ofString "!!!!"))
      (by decide) (by decide)).2.2.1 (headerJSON .HS256) (Algorithm.Header .HS256)
      (emptyToken .HS256) Error.CorruptInputError
      (by decide) (by decide) (by decide) (by decide) (by decide)⟩

/-- C14. For a `*Token`, `Encode` builds the header segment from the token's own
header and the payload segment from the token's own payload, and the
algorithm contributes nothing: the result is the same for every `alg`.  For
every other value the header segment is built from `alg.Header()` and the
payload segment from the value itself. -/
theorem encode_token_or_value {V : Type} (J : JSONCodec V) (alg : Algorithm)
    (signer : Signer) :
    (∀ (t : Token) (alg2 : Algorithm),
      Encode J alg signer (.token t) = Encode J alg2 signer (.token t)) ∧
    (∀ (t : Token) (tok : Bytes), (Encode J alg signer (.token t)).ret = .ok tok →
      ∃ header payload,
        J.Marshal (.header t.Header) = .ok header ∧
        J.Marshal (.claims t.Payload) = .ok payload ∧
        (b64Encode header ++ tokenSep ++ b64Encode payload ++ tokenSep) <+: tok) ∧
    (∀ (obj : Obj V) (tok : Bytes), (∀ t, obj ≠ .token t) →
      (Encode J alg signer obj).ret = .ok tok →
      ∃ header payload,
        J.Marshal (.header alg.Header) = .ok header ∧
        J.Marshal obj = .ok payload ∧
        (b64Encode header ++ tokenSep ++ b64Encode payload ++ tokenSep) <+: tok) := by
  refine ⟨fun t alg2 => rfl, ?_, ?_⟩
  · intro t tok h
    obtain ⟨header, payload, sig, hh, hp, -, -, ht⟩ := Encode_ok h
    exact ⟨header, payload, hh, hp, ⟨sig, ht.symm⟩⟩
  · intro obj tok hobj h
    obtain ⟨header, payload, sig, hh, hp, -, -, ht⟩ := Encode_ok h
    have ho : encodeObjs alg obj = (.header alg.Header, obj) := by
      cases obj with
      | token t => exact absurd rfl (hobj t)
      | header _ => rfl
      | claims _ => rfl
      | other _ => rfl
    rw [ho] at hh hp
    exact ⟨header, payload, hh, hp, ⟨sig, ht.symm⟩⟩

/-- Witness for C14: a `Token` whose header names `HS384`, encoded with
`HS256`, and the claims with issuer `a`, encoded with `HS256`. -/
theorem encode_token_or_value_witness :
    (∃ header payload,
      miniJSON.Marshal (.header hs384Token.Header) = .ok header ∧
      miniJSON.Marshal (.claims hs384Token.Payload) = .ok payload ∧
      (b64Encode header ++ tokenSep ++ b64Encode payload ++ tokenSep) <+:
        b64Encode (headerJSON .HS384) ++ tokenSep ++ sampleSplit.Payload ++ tokenSep ++
          b64Encode (sampleKey ++
            (b64Encode (headerJSON .HS384) ++ tokenSep ++ sampleSplit.Payload))) ∧
    (∃ header payload,
      miniJSON.Marshal (.header (Algorithm.Header .HS256)) = .ok header ∧
      miniJSON.Marshal (.claims (issuerClaims "a")) = .ok payload ∧
      (b64Encode header ++ tokenSep ++ b64Encode payload ++ tokenSep) <+: sampleToken) :=
  ⟨(encode_token_or_value miniJSON .HS256 (tagSigner sampleKey)).2.1 hs384Token _ (by decide),
   (encode_token_or_value miniJSON .HS256 (tagSigner sampleKey)).2.2
      (.claims (issuerClaims "a")) sampleToken (fun t h => by cases h) (by decide)⟩

/-- C15. After a successful `Decode` every step has succeeded, and the last
step has looked up the signature-tagged field of the target as the payload
binding left it: when there is such a field the final target is that target
with the field set to the decoded signature bytes returned by `Verify`, and
when there is none the target is left as the payload binding left it.  For a
`Token` target the signature field then holds exactly those bytes. -/
theorem decode_binds_signature {V : Type} (J : JSONCodec V) (alg : Algorithm)
    (signer : Signer) (buf : Bytes) :
    (∀ (τ : Type) (R : Binder τ) (obj : τ), (Decode J R alg signer buf obj).ret = .nil →
      ∃ ut sig headerBuf header obj1 payloadBuf payload obj2,
        DecodeUnverifiedToken buf = .ok ut ∧
        signer.Verify (ut.Header ++ tokenSep ++ ut.Payload) ut.Signature = .ok sig ∧
        b64DecodeString ut.Header = .ok headerBuf ∧
        J.UnmarshalHeader headerBuf = .ok header ∧
        R.decodeToObjOrFieldWithTag headerBuf obj "header" (.header header) = (obj1, none) ∧
        b64DecodeString ut.Payload = .ok payloadBuf ∧
        J.UnmarshalClaims payloadBuf = .ok payload ∧
        R.decodeToObjOrFieldWithTag payloadBuf obj1 "payload" (.payload payload) =
          (obj2, none) ∧
        (∀ field, R.getFieldWithTag obj2 "signature" = some field →
          (Decode J R alg signer buf obj).obj = field sig) ∧
        (R.getFieldWithTag obj2 "signature" = none →
          (Decode J R alg signer buf obj).obj = obj2)) ∧
    (∀ obj : Token, (Decode J tokenBinder alg signer buf obj).ret = .nil →
      ∃ ut sig,
        DecodeUnverifiedToken buf = .ok ut ∧
        signer.Verify (ut.Header ++ tokenSep ++ ut.Payload) ut.Signature = .ok sig ∧
        (Decode J tokenBinder alg signer buf obj).obj.Signature = sig) := by
  have key : ∀ (τ : Type) (R : Binder τ) (obj : τ),
      (Decode J R alg signer buf obj).ret = .nil →
      ∃ ut sig headerBuf header obj1 payloadBuf payload obj2,
        DecodeUnverifiedToken buf = .ok ut ∧
        signer.Verify (ut.Header ++ tokenSep ++ ut.Payload) ut.Signature = .ok sig ∧
        b64DecodeString ut.Header = .ok headerBuf ∧
        J.UnmarshalHeader headerBuf = .ok header ∧
        R.decodeToObjOrFieldWithTag headerBuf obj "header" (.header header) = (obj1, none) ∧
        b64DecodeString ut.Payload = .ok payloadBuf ∧
        J.UnmarshalClaims payloadBuf = .ok payload ∧
        R.decodeToObjOrFieldWithTag payloadBuf obj1 "payload" (.payload payload) =
          (obj2, none) ∧
        (∀ field, R.getFieldWithTag obj2 "signature" = some field →
          (Decode J R alg signer buf obj).obj = field sig) ∧
        (R.getFieldWithTag obj2 "signature" = none →
          (Decode J R alg signer buf obj).obj = obj2) := by
    intro τ R obj hok
    rcases Decode_early J R alg signer buf obj with ⟨hne, -⟩ |
      ⟨ut, sig, headerBuf, header, hsplit, hver, hb, hh, halg⟩
    · exact absurd hok hne
    · rw [Decode_of_checked J R alg signer buf obj ut sig headerBuf header hsplit hver hb hh
        halg] at hok ⊢
      cases hbind : R.decodeToObjOrFieldWithTag headerBuf obj "header" (.header header) with
      | mk obj1 err1 =>
        cases err1 with
        | some e => simp only [hbind] at hok; cases hok
        | none =>
          simp only [hbind] at hok ⊢
          cases hpb : b64DecodeString ut.Payload with
          | error e => simp only [hpb] at hok; cases hok
          | ok payloadBuf =>
            simp only [hpb] at hok ⊢
            cases hp : J.UnmarshalClaims payloadBuf with
            | error e => simp only [hp] at hok; cases hok
            | ok payload =>
              simp only [hp] at hok ⊢
              cases hbind2 : R.decodeToObjOrFieldWithTag payloadBuf obj1 "payload"
                  (.payload payload) with
              | mk obj2 err2 =>
                cases err2 with
                | some e => simp only [hbind2] at hok; cases hok
                | none =>
                  refine ⟨ut, sig, headerBuf, header, obj1, payloadBuf, payload, obj2, hsplit,
                    hver, hb, hh, hbind, hpb, hp, hbind2, ?_, ?_⟩
                  · intro field hf
                    simp only [hbind2, hf]
                  · intro hf
                    simp only [hbind2, hf]
  refine ⟨key, ?_⟩
  intro obj hok
  obtain ⟨ut, sig, headerBuf, header, obj1, payloadBuf, payload, obj2, hsplit, hver, -, -, -,
    -, -, -, hsome, -⟩ := key Token tokenBinder obj hok
  refine ⟨ut, sig, hsplit, hver, ?_⟩
  rw [hsome (fun s => { obj2 with Signature := s }) (by simp only [tokenBinder, if_true])]

/-- Witness for C15: the sample token decoded into a `Token`; its signature
field then holds the decoded signature, the key followed by the signing
input. -/
theorem decode_binds_signature_witness :
    ∃ ut sig,
      DecodeUnverifiedToken sampleToken = .ok ut ∧
      (tagSigner sampleKey).Verify (ut.Header ++ tokenSep ++ ut.Payload) ut.Signature =
        .ok sig ∧
      (Decode miniJSON tokenBinder .HS256 (tagSigner sampleKey) sampleToken
        (emptyToken .HS256)).obj.Signature = sig :=
  (decode_binds_signature miniJSON .HS256 (tagSigner sampleKey) sampleToken).2
    (emptyToken .HS256) (by decide)

/-- C16. For a token that the split step divides into header, payload and
signature spans, the token is these spans joined by the separator, and
`Decode` calls `Verify` exactly once, with the data header span, separator,
payload span (the prefix of the token of that length) and with the raw
signature span.  When the token was produced by `Encode`, this is the byte
string that `Encode` passed to `Sign`. -/
theorem decode_verify_arguments {τ V : Type} (J : JSONCodec V) (R : Binder τ)
    (alg : Algorithm) (signer : Signer) (buf : Bytes) (obj : τ) (ut : UnverifiedToken)
    (hsplit : DecodeUnverifiedToken buf = .ok ut) :
    buf = ut.Header ++ tokenSep ++ ut.Payload ++ tokenSep ++ ut.Signature ∧
    (Decode J R alg signer buf obj).calls =
      [Call.Verify (ut.Header ++ tokenSep ++ ut.Payload) ut.Signature] ∧
    ut.Header ++ tokenSep ++ ut.Payload =
      buf.take (ut.Header.length + tokenSep.length + ut.Payload.length) ∧
    (∀ (W : Type) (J2 : JSONCodec W) (alg2 : Algorithm) (signer2 : Signer) (o : Obj W),
      (Encode J2 alg2 signer2 o).ret = .ok buf →
      (Encode J2 alg2 signer2 o).calls = [Call.Sign (ut.Header ++ tokenSep ++ ut.Payload)]) := by
  refine ⟨DecodeUnverifiedToken_join hsplit, Decode_calls_of_split J R alg signer buf obj ut hsplit,
    ?_, ?_⟩
  · have h := sliceTo_signingInput hsplit
    unfold sliceTo at h
    split at h
    · exact (Option.some.inj h).symm
    · cases h
  · intro W J2 alg2 signer2 o henc
    exact (Encode_split henc (DecodeUnverifiedToken_ok_iff.1 hsplit)).1

/-- Witness for C16: the sample token. -/
theorem decode_verify_arguments_witness :
    sampleToken = sampleSplit.Header ++ tokenSep ++ sampleSplit.Payload ++ tokenSep ++
      sampleSplit.Signature ∧
    (Decode miniJSON tokenBinder .HS256 (tagSigner sampleKey) sampleToken
        (emptyToken .HS256)).calls =
      [Call.Verify (sampleSplit.Header ++ tokenSep ++ sampleSplit.Payload)
        sampleSplit.Signature] ∧
    (Encode miniJSON .HS256 (tagSigner sampleKey) (.claims (issuerClaims "a"))).calls =
      [Call.Sign (sampleSplit.Header ++ tokenSep ++ sampleSplit.Payload)] :=
  ⟨(decode_verify_arguments miniJSON tokenBinder .HS256 (tagSigner sampleKey) sampleToken
      (emptyToken .HS256) sampleSplit (by decide)).1,
   (decode_verify_arguments miniJSON tokenBinder .HS256 (tagSigner sampleKey) sampleToken
      (emptyToken .HS256) sampleSplit (by decide)).2.1,
   (decode_verify_arguments miniJSON tokenBinder .HS256 (tagSigner sampleKey) sampleToken
      (emptyToken .HS256) sampleSplit (by decide)).2.2.2 Unit miniJSON .HS256
      (tagSigner sampleKey) (.claims (issuerClaims "a")) (by decide)⟩

/-- C17. `Encode` does not check a `*Token`'s header against `alg`.  Take a
`Token` whose header names an algorithm other than `alg`, for which `Encode`
under the header's own algorithm gives the token `tok` and `Decode` of `tok`
under that algorithm succeeds.  Then `Encode` with `alg` still succeeds, with
the same result: it returns `tok`, having signed it, and `Decode` of `tok`
with the same `alg` and signer fails with `ErrInvalidAlgorithm`. -/
theorem encode_token_unchecked {τ V : Type} (J : JSONCodec V) (R : Binder τ)
    (alg : Algorithm) (signer : Signer) (t : Token) (target : τ) (tok : Bytes)
    (hne : t.Header.Algorithm ≠ alg)
    (henc : (Encode J t.Header.Algorithm signer (.token t)).ret = .ok tok)
    (hdec : (Decode J R t.Header.Algorithm signer tok target).ret = .nil) :
    (Encode J alg signer (.token t)).ret = .ok tok ∧
    (∃ signingInput sig,
      (Encode J alg signer (.token t)).calls = [Call.Sign signingInput] ∧
      signer.Sign signingInput = .ok sig ∧
      tok = signingInput ++ tokenSep ++ sig) ∧
    (Decode J R alg signer tok target).ret = .error Error.ErrInvalidAlgorithm := by
  have hsame : Encode J alg signer (.token t) = Encode J t.Header.Algorithm signer (.token t) :=
    rfl
  refine ⟨by rw [hsame]; exact henc, ?_, ?_⟩
  · rw [hsame]
    obtain ⟨header, payload, sig, -, -, hs, hc, ht⟩ := Encode_ok henc
    exact ⟨_, sig, hc, hs, ht⟩
  · rcases Decode_early J R t.Header.Algorithm signer tok target with ⟨hfail, -⟩ |
      ⟨ut, sig, headerBuf, header, hsplit, hver, hb, hh, halg⟩
    · exact absurd hdec hfail
    · rw [Decode_of_alg_mismatch J R alg signer tok target ut sig headerBuf header hsplit hver
        hb hh (by rw [halg]; exact hne)]

/-- Witness for C17: the `Token` whose header names `HS384`, encoded and
decoded with `HS256`. -/
theorem encode_token_unchecked_witness :
    (Encode miniJSON .HS256 (tagSigner sampleKey) (.token hs384Token)).ret =
      .ok rewrittenTokenSigned ∧
    (∃ signingInput sig,
      (Encode miniJSON .HS256 (tagSigner sampleKey) (.token hs384Token)).calls =
        [Call.Sign signingInput] ∧
      (tagSigner sampleKey).Sign signingInput = .ok sig ∧
      rewrittenTokenSigned = signingInput ++ tokenSep ++ sig) ∧
    (Decode miniJSON tokenBinder .HS256 (tagSigner sampleKey) rewrittenTokenSigned
      (emptyToken .HS256)).ret = .error Error.ErrInvalidAlgorithm :=
  encode_token_unchecked miniJSON tokenBinder .HS256 (tagSigner sampleKey) hs384Token
    (emptyToken .HS256) rewrittenTokenSigned (by decide) (by decide) (by decide)

/-- C18. `Decode` JSON-decodes the payload into `Claims` before binding it,
whatever the target: when the signature verifies, the header matches and the
payload bytes cannot be unmarshalled into `Claims`, `Decode` fails, with the
error of the binding of the header if that step failed and with the JSON
error otherwise.  Hence a token that `Encode` makes from a payload whose JSON
cannot be unmarshalled into `Claims` is rejected by `Decode`. -/
theorem decode_payload_as_claims {τ V : Type} (J : JSONCodec V) (R : Binder τ)
    (alg : Algorithm) (signer : Signer) (obj : τ) :
    (∀ buf ut sig headerBuf header payloadBuf e,
      DecodeUnverifiedToken buf = .ok ut →
      signer.Verify (ut.Header ++ tokenSep ++ ut.Payload) ut.Signature = .ok sig →
      b64DecodeString ut.Header = .ok headerBuf →
      J.UnmarshalHeader headerBuf = .ok header →
      header.Algorithm = alg →
      b64DecodeString ut.Payload = .ok payloadBuf →
      J.UnmarshalClaims payloadBuf = .error e →
      (Decode J R alg signer buf obj).ret = .error e ∨
      ∃ obj1 e1,
        R.decodeToObjOrFieldWithTag headerBuf obj "header" (.header header) = (obj1, some e1) ∧
        (Decode J R alg signer buf obj).ret = .error e1) ∧
    (∀ (alg2 : Algorithm) (signer2 : Signer) (v : Obj V) (tok payloadJson : Bytes) (e : Error),
      (Encode J alg2 signer2 v).ret = .ok tok →
      J.Marshal (encodeObjs alg2 v).2 = .ok payloadJson →
      J.UnmarshalClaims payloadJson = .error e →
      (Decode J R alg signer tok obj).ret ≠ .nil) := by
  have first : ∀ buf ut sig headerBuf header payloadBuf e,
      DecodeUnverifiedToken buf = .ok ut →
      signer.Verify (ut.Header ++ tokenSep ++ ut.Payload) ut.Signature = .ok sig →
      b64DecodeString ut.Header = .ok headerBuf →
      J.UnmarshalHeader headerBuf = .ok header →
      header.Algorithm = alg →
      b64DecodeString ut.Payload = .ok payloadBuf →
      J.UnmarshalClaims payloadBuf = .error e →
      (Decode J R alg signer buf obj).ret = .error e ∨
      ∃ obj1 e1,
        R.decodeToObjOrFieldWithTag headerBuf obj "header" (.header header) = (obj1, some e1) ∧
        (Decode J R alg signer buf obj).ret = .error e1 := by
    intro buf ut sig headerBuf header payloadBuf e hsplit hver hb hh halg hpb hp
    rw [Decode_of_checked J R alg signer buf obj ut sig headerBuf header hsplit hver hb hh halg]
    cases hbind : R.decodeToObjOrFieldWithTag headerBuf obj "header" (.header header) with
    | mk obj1 err1 =>
      cases err1 with
      | some e1 => exact Or.inr ⟨obj1, e1, rfl, rfl⟩
      | none =>
        left
        simp only [hpb, hp]
  refine ⟨first, ?_⟩
  intro alg2 signer2 v tok payloadJson e henc hm hu
  rcases Decode_early J R alg signer tok obj with ⟨hfail, -⟩ |
    ⟨ut, sig, headerBuf, header, hsplit, hver, hb, hh, halg⟩
  · exact hfail
  · obtain ⟨-, -, -, payload, hm2, hpay⟩ := Encode_split henc (DecodeUnverifiedToken_ok_iff.1 hsplit)
    rw [hm] at hm2
    have hpj : payloadJson = payload := Except.ok.inj hm2
    subst hpj
    have hpb : b64DecodeString ut.Payload = .ok payloadJson := by
      rw [hpay]; exact b64DecodeString_b64Encode _
    rcases first tok ut sig headerBuf header payloadJson e hsplit hver hb hh halg hpb hu with
      h | ⟨obj1, e1, -, h⟩
    · rw [h]; simp
    · rw [h]; simp

/-- Witness for C18: the JSON array `[1,2]` as a payload of a caller-defined
type that accepts any JSON text; the encoded token is rejected by `Decode`. -/
theorem decode_payload_as_claims_witness :
    (Encode rawJSON .HS256 (tagSigner sampleKey) (.other (ofString "[1,2]"))).ret =
      .ok arrayToken ∧
    (Decode rawJSON rawMessageBinder .HS256 (tagSigner sampleKey) arrayToken []).ret ≠ .nil :=
  ⟨by decide,
    (decode_payload_as_claims rawJSON rawMessageBinder .HS256 (tagSigner sampleKey) []).2
      .HS256 (tagSigner sampleKey) (.other (ofString "[1,2]")) arrayToken (ofString "[1,2]")
      (.other "json: cannot unmarshal claims") (by decide) (by decide) (by decide)⟩

/-- C19. Whenever the split step succeeds, the slice bound
`len(header)+len(tokenSep)+len(payload)` is at most `len(buf)`, so the slice
expression in `Decode` is in range and yields header span, separator, payload
span; `Decode` does not panic. -/
theorem decode_slice_in_range {τ V : Type} (J : JSONCodec V) (R : Binder τ)
    (alg : Algorithm) (signer : Signer) (buf : Bytes) (obj : τ) (ut : UnverifiedToken)
    (hsplit : DecodeUnverifiedToken buf = .ok ut) :
    ut.Header.length + tokenSep.length + ut.Payload.length ≤ buf.length ∧
    sliceTo buf (ut.Header.length + tokenSep.length + ut.Payload.length) =
      some (ut.Header ++ tokenSep ++ ut.Payload) ∧
    (Decode J R alg signer buf obj).ret ≠ .panic := by
  refine ⟨?_, sliceTo_signingInput hsplit, Decode_ne_panic J R alg signer buf obj⟩
  have h := sliceTo_signingInput hsplit
  unfold sliceTo at h
  split at h
  · assumption
  · cases h

/-- Witness for C19: the sample token. -/
theorem decode_slice_in_range_witness :
    sampleSplit.Header.length + tokenSep.length + sampleSplit.Payload.length ≤
      sampleToken.length ∧
    sliceTo sampleToken
        (sampleSplit.Header.length + tokenSep.length + sampleSplit.Payload.length) =
      some (sampleSplit.Header ++ tokenSep ++ sampleSplit.Payload) ∧
    (Decode miniJSON tokenBinder .HS256 (tagSigner sampleKey) sampleToken
      (emptyToken .HS256)).ret ≠ .panic :=
  decode_slice_in_range miniJSON tokenBinder .HS256 (tagSigner sampleKey) sampleToken
    (emptyToken .HS256) sampleSplit (by decide)

end Jwt
